import Mathlib

/-!
Verification development for the syncary repository.

The embedding models the synchronization engine of
`src/core/task_manager.py` (`FileSyncTask._sync_recursive` and its
helpers) running against the local connector of
`src/core/connectors/local_file_connector.py` (`LocalFileConnector`).

A file system is a finite tree of named entries.  File contents are
modelled as `String` (standing for the full byte sequence, so SHA-256
checksum equality is modelled as content equality, as the spec itself
assumes collisions are negligible), and modification times as `Nat`.
Paths are lists of components relative to the two synchronization
roots, matching how `_sync_recursive` joins `relative_path` with the
roots.  Exceptions are modelled as an `Err` value carried in the
result: the Python code lets them propagate out of
`_sync_recursive` (aborting the rest of the pass) and catches them
only at the top of `FileSyncTask.execute`.
-/

set_option autoImplicit false

namespace Syncary

/-- A node of a file tree: a regular file (content and modification time) or
a directory with its children in listing order. -/
inductive Entry where
  | file (content : String) (mtime : Nat)
  | dir (children : List (String × Entry))

/-- The "type" field of a listing record built by
`LocalFileConnector.get_file_list` through `os.path.isdir`. -/
inductive EntryKind where
  | file
  | folder
deriving DecidableEq, Repr

/-- An exception, as distinguished by the except clauses of the code:
`fileSyncError` is the connectors' wrapped `FileSynchronizationError`;
`notFound` and `isADirectory` are raw `OSError`s escaping
`_calculate_checksum` / `os.path.getmtime` unwrapped. -/
inductive Err where
  | fileSyncError
  | notFound
  | isADirectory
deriving DecidableEq, Repr

/-- Kind of an entry node. -/
def entryKind : Entry → EntryKind
  | .file _ _ => .file
  | .dir _ => .folder

/-- Names of a children list, in listing order. -/
def namesOf (cs : List (String × Entry)) : List String :=
  cs.map (·.1)

/-- First entry with the given name, the file-system lookup of one path
component. -/
def lookupName : List (String × Entry) → String → Option Entry
  | [], _ => none
  | (m, e) :: rest, n => if m = n then some e else lookupName rest n

/-- Replace the first entry with the given name, or append a fresh one:
how creating or overwriting a child shows up in subsequent listings. -/
def setChild : List (String × Entry) → String → Entry → List (String × Entry)
  | [], n, x => [(n, x)]
  | (m, e) :: rest, n, x => if m = n then (n, x) :: rest else (m, e) :: setChild rest n x

/-- Remove the first entry with the given name. -/
def removeChild : List (String × Entry) → String → List (String × Entry)
  | [], _ => []
  | (m, e) :: rest, n => if m = n then rest else (m, e) :: removeChild rest n

/-- Resolve a relative path in a tree. -/
def getEntry : Entry → List String → Option Entry
  | e, [] => some e
  | .file _ _, _ :: _ => none
  | .dir cs, n :: p =>
    match lookupName cs n with
    | some e => getEntry e p
    | none => none

/-- `LocalFileConnector.get_file_list`: `os.listdir` plus an `os.path.isdir`
test per entry.  Any `OSError` (absent path, not a directory, permissions)
is wrapped into `FileSynchronizationError`. -/
def getFileList (root : Entry) (p : List String) : Except Err (List (String × EntryKind)) :=
  match getEntry root p with
  | some (.dir cs) => .ok (cs.map fun c => (c.1, entryKind c.2))
  | some (.file _ _) => .error .fileSyncError
  | none => .error .fileSyncError

/-- `LocalFileConnector.upload_file`: `shutil.copy2 (local, remote)`.
Content and modification time are both copied.  If the target path names
an existing directory, `copy2` retargets into that directory under the
source basename (and fails if that inner path is again a directory).
Any `OSError` is wrapped into `FileSynchronizationError`. -/
def uploadFile (root : Entry) (p : List String) (srcBase content : String) (mtime : Nat) :
    Except Err Entry :=
  match p with
  | [] => .error .fileSyncError
  | [n] =>
    match root with
    | .file _ _ => .error .fileSyncError
    | .dir cs =>
      match lookupName cs n with
      | none => .ok (.dir (setChild cs n (.file content mtime)))
      | some (.file _ _) => .ok (.dir (setChild cs n (.file content mtime)))
      | some (.dir ds) =>
        match lookupName ds srcBase with
        | some (.dir _) => .error .fileSyncError
        | _ => .ok (.dir (setChild cs n (.dir (setChild ds srcBase (.file content mtime)))))
  | n :: p' =>
    match root with
    | .file _ _ => .error .fileSyncError
    | .dir cs =>
      match lookupName cs n with
      | none => .error .fileSyncError
      | some child =>
        match uploadFile child p' srcBase content mtime with
        | .ok child' => .ok (.dir (setChild cs n child'))
        | .error e => .error e

/-- `LocalFileConnector.delete_file`: `shutil.rmtree` for a directory
(removing everything beneath it), `os.remove` for a file.  An absent path
raises `FileNotFoundError`, wrapped into `FileSynchronizationError`. -/
def deleteFile (root : Entry) (p : List String) : Except Err Entry :=
  match p with
  | [] => .error .fileSyncError
  | [n] =>
    match root with
    | .file _ _ => .error .fileSyncError
    | .dir cs =>
      match lookupName cs n with
      | none => .error .fileSyncError
      | some _ => .ok (.dir (removeChild cs n))
  | n :: p' =>
    match root with
    | .file _ _ => .error .fileSyncError
    | .dir cs =>
      match lookupName cs n with
      | none => .error .fileSyncError
      | some child =>
        match deleteFile child p' with
        | .ok child' => .ok (.dir (setChild cs n child'))
        | .error e => .error e

/-- `LocalFileConnector.create_folder`: `os.makedirs (path, exist_ok := True)`.
Creates intermediate directories; an existing directory at the target is not
an error, but a file anywhere along the path is (wrapped `OSError`). -/
def createFolder (root : Entry) (p : List String) : Except Err Entry :=
  match p with
  | [] =>
    match root with
    | .dir _ => .ok root
    | .file _ _ => .error .fileSyncError
  | n :: p' =>
    match root with
    | .file _ _ => .error .fileSyncError
    | .dir cs =>
      match lookupName cs n with
      | none =>
        match createFolder (.dir []) p' with
        | .ok child' => .ok (.dir (setChild cs n child'))
        | .error e => .error e
      | some child =>
        match createFolder child p' with
        | .ok child' => .ok (.dir (setChild cs n child'))
        | .error e => .error e

/-- `os.path.splitext` applied to a single path component: split at the last
dot, except that a basename consisting only of leading dots before that dot
is not split. -/
def splitext (name : String) : String × String :=
  let cs := name.data
  match cs.reverse.findIdx? (fun c => c = '.') with
  | none => (name, "")
  | some k =>
    let i := cs.length - 1 - k
    if (cs.take i).all (fun c => c = '.') then (name, "")
    else (String.mk (cs.take i), String.mk (cs.drop i))

/-- `FileSyncTask._rename_conflicting_file`: rebuild the path with
`base_conflict_timestamp` plus the original extension as its last component.
The `timestamp` argument models the `datetime.now().strftime(...)` string. -/
def renameConflictingFile (p : List String) (timestamp : String) : List String :=
  match p with
  | [] => []
  | [n] => [(splitext n).1 ++ "_conflict_" ++ timestamp ++ (splitext n).2]
  | n :: rest => n :: renameConflictingFile rest timestamp

/-- One print/record of the pass, one constructor per `print` in
`_sync_recursive` (the code has no summary object; its prints are the
observable record of uploads, deletions and folder creations). -/
inductive Op where
  | deleted (path : List String)
  | deletedFolder (path : List String)
  | uploaded (src dst : List String)
  | uploadedSourceChosen (src dst : List String)
  | skippedDestinationChosen (src : List String)
  | skippedCanceled (src : List String)
  | uploadedRenamed (src dst : List String)
  | warningInvalidOption (opt : String)
  | updated (src dst : List String)
  | createdFolder (path : List String)
deriving DecidableEq, Repr

/-- Outcome of `FileSyncTask._resolve_conflict_with_prompt`: the loop reads
stdin until it yields source, destination, or cancel. -/
inductive PromptChoice where
  | source
  | destination
  | cancel
deriving DecidableEq, Repr

/-- The task options dict (with the `options.get` defaults of the code
applied: `delete` defaults to `False`, `conflict_resolution` to `"prompt"`)
together with the environment a pass observes: the stdin answers of the
prompt loop, the clock string `datetime.now()` produces during the pass,
and the relative paths at which `get_file_list` raises on the source side
(`unreadable`, e.g. permission failures) or on the destination side
(`destListFails`, failures other than those the tree itself explains). -/
structure Ctx where
  delete : Bool := false
  conflictResolution : String := "prompt"
  promptChoice : List String → List String → PromptChoice := fun _ _ => .cancel
  now : String := ""
  unreadable : List (List String) := []
  destListFails : List (List String) := []

/-- Result of (part of) a pass: the destination tree after the performed
operations, the record of operations in order, and the exception that
aborted the rest of the pass, if any.  Exceptions propagate out of
`_sync_recursive` and are caught only in `FileSyncTask.execute`. -/
structure SyncResult where
  dst : Entry
  ops : List Op
  err : Option Err

/-- The destination-side `get_file_list` call, including injected
backend failures on otherwise intact paths. -/
def getFileListD (ctx : Ctx) (dstRoot : Entry) (rel : List String) :
    Except Err (List (String × EntryKind)) :=
  if rel ∈ ctx.destListFails then .error .fileSyncError
  else getFileList dstRoot rel

/-- Lines 167-170: the destination listing wrapped in
`try ... except FileSynchronizationError: destination_entries = []`. -/
def destListing (ctx : Ctx) (dstRoot : Entry) (rel : List String) :
    List (String × EntryKind) :=
  match getFileListD ctx dstRoot rel with
  | .ok l => l
  | .error _ => []

/-- Lines 188-197: with the `delete` option on, delete every destination
entry whose name is absent from the source listing (file and folder
branches both call `delete_file`). -/
def deletionPhase (dstRoot : Entry) (rel : List String) (srcNames : List String) :
    List (String × EntryKind) → SyncResult
  | [] => { dst := dstRoot, ops := [], err := none }
  | (n, k) :: rest =>
    if n ∈ srcNames then deletionPhase dstRoot rel srcNames rest
    else
      match deleteFile dstRoot (rel ++ [n]) with
      | .error e => { dst := dstRoot, ops := [], err := some e }
      | .ok d' =>
        let r := deletionPhase d' rel srcNames rest
        { dst := r.dst,
          ops := (if k = .folder then Op.deletedFolder (rel ++ [n])
                  else Op.deleted (rel ++ [n])) :: r.ops,
          err := r.err }

/-- Lines 220-255: the conflict branch, taken when the checksums differ.
`prompt` asks the user; `rename` uploads the source file under a
timestamped name; any other value only prints a warning. -/
def resolveConflict (ctx : Ctx) (dstRoot : Entry) (srcPath destPath : List String)
    (content : String) (mtime : Nat) (srcBase : String) : SyncResult :=
  if ctx.conflictResolution = "prompt" then
    match ctx.promptChoice srcPath destPath with
    | .source =>
      match uploadFile dstRoot destPath srcBase content mtime with
      | .error e => { dst := dstRoot, ops := [], err := some e }
      | .ok d' => { dst := d', ops := [.uploadedSourceChosen srcPath destPath], err := none }
    | .destination => { dst := dstRoot, ops := [.skippedDestinationChosen srcPath], err := none }
    | .cancel => { dst := dstRoot, ops := [.skippedCanceled srcPath], err := none }
  else if ctx.conflictResolution = "rename" then
    match uploadFile dstRoot (renameConflictingFile destPath ctx.now) srcBase content mtime with
    | .error e => { dst := dstRoot, ops := [], err := some e }
    | .ok d' =>
      { dst := d',
        ops := [.uploadedRenamed srcPath (renameConflictingFile destPath ctx.now)],
        err := none }
  else { dst := dstRoot, ops := [.warningInvalidOption ctx.conflictResolution], err := none }

/-- Lines 211-264: the file already exists at the destination.  The code
reads both mtimes (`os.path.getmtime` raises a raw `OSError` on an absent
path) and both checksums (`_calculate_checksum` raises a raw
`IsADirectoryError` when the destination entry is a folder), then compares
checksums first; only when they are equal does it compare mtimes. -/
def handleExistingFile (ctx : Ctx) (dstRoot : Entry) (srcPath destPath : List String)
    (content : String) (mtime : Nat) (srcBase : String) : SyncResult :=
  match getEntry dstRoot destPath with
  | none => { dst := dstRoot, ops := [], err := some .notFound }
  | some (.dir _) => { dst := dstRoot, ops := [], err := some .isADirectory }
  | some (.file dc dm) =>
    if content ≠ dc then
      resolveConflict ctx dstRoot srcPath destPath content mtime srcBase
    else if mtime > dm then
      match uploadFile dstRoot destPath srcBase content mtime with
      | .error e => { dst := dstRoot, ops := [], err := some e }
      | .ok d' => { dst := d', ops := [.updated srcPath destPath], err := none }
    else { dst := dstRoot, ops := [], err := none }

mutual

/-- Body of `_sync_recursive` after the source listing succeeded with
`children`: list the destination (failures giving the empty set), run the
deletion phase if enabled, then reconcile each source entry in listing
order. -/
def syncDir (ctx : Ctx) (children : List (String × Entry)) (dstRoot : Entry)
    (rel : List String) : SyncResult :=
  let destEntries := destListing ctx dstRoot rel
  let afterDel :=
    if ctx.delete then deletionPhase dstRoot rel (namesOf children) destEntries
    else { dst := dstRoot, ops := [], err := none }
  match afterDel.err with
  | some _ => afterDel
  | none =>
    let r := syncEntries ctx children (destEntries.map (·.1)) afterDel.dst rel
    { dst := r.dst, ops := afterDel.ops ++ r.ops, err := r.err }
termination_by (sizeOf children, 1)

/-- Lines 199-273: the loop over the source entries.  An exception from one
entry stops the loop (it propagates out of `_sync_recursive`). -/
def syncEntries (ctx : Ctx) (entries : List (String × Entry)) (destNames : List String)
    (dstRoot : Entry) (rel : List String) : SyncResult :=
  match entries with
  | [] => { dst := dstRoot, ops := [], err := none }
  | (n, e) :: rest =>
    let r := syncEntry ctx n e destNames dstRoot rel
    match r.err with
    | some _ => r
    | none =>
      let r2 := syncEntries ctx rest destNames r.dst rel
      { dst := r2.dst, ops := r.ops ++ r2.ops, err := r2.err }
termination_by (sizeOf entries, 0)

/-- One source entry: upload a new file, hand an existing name to
`handleExistingFile`, create a missing folder, and recurse into folders.
The `unreadable` test models the recursive call's own source
`get_file_list` raising before anything else happens at that level. -/
def syncEntry (ctx : Ctx) (n : String) (e : Entry) (destNames : List String)
    (dstRoot : Entry) (rel : List String) : SyncResult :=
  match e with
  | .file c m =>
    if n ∈ destNames then
      handleExistingFile ctx dstRoot (rel ++ [n]) (rel ++ [n]) c m n
    else
      match uploadFile dstRoot (rel ++ [n]) n c m with
      | .error er => { dst := dstRoot, ops := [], err := some er }
      | .ok d' => { dst := d', ops := [.uploaded (rel ++ [n]) (rel ++ [n])], err := none }
  | .dir sub =>
    if n ∈ destNames then
      if rel ++ [n] ∈ ctx.unreadable then
        { dst := dstRoot, ops := [], err := some .fileSyncError }
      else syncDir ctx sub dstRoot (rel ++ [n])
    else
      match createFolder dstRoot (rel ++ [n]) with
      | .error er => { dst := dstRoot, ops := [], err := some er }
      | .ok d' =>
        if rel ++ [n] ∈ ctx.unreadable then
          { dst := d', ops := [.createdFolder (rel ++ [n])], err := some .fileSyncError }
        else
          let r := syncDir ctx sub d' (rel ++ [n])
          { dst := r.dst, ops := .createdFolder (rel ++ [n]) :: r.ops, err := r.err }
termination_by (sizeOf e, 2)

end

/-- `FileSyncTask._sync_recursive` called at relative path `rel` with the
source subtree `src` standing at that path: the source `get_file_list`
(which raises on an unreadable or non-directory source path, a
`FileSynchronizationError` that nothing below `execute` catches), then the
per-level body. -/
def syncRecursive (ctx : Ctx) (src dstRoot : Entry) (rel : List String) : SyncResult :=
  if rel ∈ ctx.unreadable then { dst := dstRoot, ops := [], err := some .fileSyncError }
  else
    match src with
    | .file _ _ => { dst := dstRoot, ops := [], err := some .fileSyncError }
    | .dir children => syncDir ctx children dstRoot rel

/-- `FileSyncTask.execute`: one pass from the roots.  The `err` field of the
result is the exception `execute` caught and printed (`none` when the pass
ran to completion). -/
def execute (ctx : Ctx) (src dstRoot : Entry) : SyncResult :=
  syncRecursive ctx src dstRoot []

/-- Records counted by the spec as uploads (plain upload, conflict
resolution in favour of the source, rename upload, metadata refresh). -/
def isUploadOp : Op → Bool
  | .uploaded _ _ => true
  | .uploadedSourceChosen _ _ => true
  | .uploadedRenamed _ _ => true
  | .updated _ _ => true
  | _ => false

/-- Records counted by the spec as deletions. -/
def isDeleteOp : Op → Bool
  | .deleted _ => true
  | .deletedFolder _ => true
  | _ => false

/-- Records counted by the spec as folder creations. -/
def isCreateFolderOp : Op → Bool
  | .createdFolder _ => true
  | _ => false

/-- Records emitted only by the conflict branch (lines 220-255). -/
def isConflictOp : Op → Bool
  | .uploadedSourceChosen _ _ => true
  | .skippedDestinationChosen _ => true
  | .skippedCanceled _ => true
  | .uploadedRenamed _ _ => true
  | .warningInvalidOption _ => true
  | _ => false

/-- No record of the list comes from the conflict branch. -/
def noConflictOps (ops : List Op) : Bool :=
  ops.all fun op => !isConflictOp op

/-- Verification helper: replace the subtree standing at a path (leaving the
tree unchanged when the path does not resolve). -/
def replaceSub (e : Entry) (p : List String) (x : Entry) : Entry :=
  match p with
  | [] => x
  | n :: p' =>
    match e with
    | .file c m => .file c m
    | .dir cs =>
      match lookupName cs n with
      | none => .dir cs
      | some child => .dir (setChild cs n (replaceSub child p' x))

/-- The names of a listing are pairwise distinct. -/
def nodupB : List String → Bool
  | [] => true
  | x :: xs => (!(decide (x ∈ xs))) && nodupB xs

mutual

/-- Well-formed tree: every directory lists pairwise distinct names, the
invariant every real file system provides and the spec assumes of
backends. -/
def entryWf : Entry → Bool
  | .file _ _ => true
  | .dir cs => nodupB (namesOf cs) && childrenWf cs
termination_by e => (sizeOf e, 1)

/-- All entries of a children list are well-formed trees. -/
def childrenWf : List (String × Entry) → Bool
  | [] => true
  | (_, e) :: rest => entryWf e && childrenWf rest
termination_by cs => (sizeOf cs, 0)

end

mutual

/-- The destination subtree `ds` already reflects the source children
`children`, so that a pass over the pair performs no operation: every
source file is present with equal content and a destination mtime not older
than the source's, every source folder is present as a folder that
recursively reflects it (or as a file facing an empty source folder, the
configuration the code silently walks through), and, when the delete
option is on, no destination name falls outside the source names. -/
def noChangeDir (del : Bool) (children ds : List (String × Entry)) : Bool :=
  (!del || ds.all fun p => decide (p.1 ∈ namesOf children)) &&
    noChangeEntries del children ds
termination_by (sizeOf children, 1)

/-- `noChangeDir` membership check for each source entry. -/
def noChangeEntries (del : Bool) (children ds : List (String × Entry)) : Bool :=
  match children with
  | [] => true
  | (n, e) :: rest => noChangeEntry del n e ds && noChangeEntries del rest ds
termination_by (sizeOf children, 0)

/-- `noChangeDir` condition for a single source entry. -/
def noChangeEntry (del : Bool) (n : String) (e : Entry) (ds : List (String × Entry)) : Bool :=
  match e with
  | .file c m =>
    match lookupName ds n with
    | some (.file c' m') => c == c' && decide (m ≤ m')
    | _ => false
  | .dir sub =>
    match lookupName ds n with
    | some (.dir ds') => noChangeDir del sub ds'
    | some (.file _ _) => sub.isEmpty
    | none => false
termination_by (sizeOf e, 2)

end

/-! ### Shared lemmas -/

theorem getEntry_append (p q : List String) : ∀ (root : Entry),
    getEntry root (p ++ q) = (getEntry root p).bind fun e => getEntry e q := by
  induction p with
  | nil => intro root; simp [getEntry]
  | cons n p' ih =>
    intro root
    cases root with
    | file c m => simp [getEntry]
    | dir cs =>
      simp only [List.cons_append, getEntry]
      cases lookupName cs n with
      | none => simp
      | some child => simpa using ih child

theorem uploadFile_of_file (p : List String) : ∀ (root : Entry) (dc : String) (dm : Nat)
    (b c : String) (m : Nat), p ≠ [] → getEntry root p = some (.file dc dm) →
    uploadFile root p b c m = .ok (replaceSub root p (.file c m)) := by
  induction p with
  | nil => intro _ _ _ _ _ _ h _; exact absurd rfl h
  | cons n p' ih =>
    intro root dc dm b c m _ hget
    cases root with
    | file c' m' => simp [getEntry] at hget
    | dir cs =>
      simp only [getEntry] at hget
      cases hl : lookupName cs n with
      | none => rw [hl] at hget; simp at hget
      | some child =>
        rw [hl] at hget
        cases p' with
        | nil =>
          simp only [getEntry, Option.some.injEq] at hget
          subst hget
          simp [uploadFile, replaceSub, hl]
        | cons n2 p2 =>
          have h2 := ih child dc dm b c m (by simp) hget
          simp only [uploadFile, replaceSub, hl, h2]

/-! ### C1 -/

/-- C1: for a file present on both sides, `handleExistingFile` compares the
content checksums first: if they differ it takes the conflict path
(`resolveConflict`, which never consults the modification times); only when
they are equal does it compare modification times, re-uploading exactly when
the source mtime is strictly greater (recorded as `updated`), and performing
no operation at all otherwise.  In particular two files with identical
bytes and different mtimes never reach the conflict branch. -/
theorem c1_checksum_precedes_mtime (ctx : Ctx) (dstRoot : Entry)
    (sp dp : List String) (c : String) (m : Nat) (b dc : String) (dm : Nat)
    (hne : dp ≠ []) (hdst : getEntry dstRoot dp = some (.file dc dm)) :
    (c ≠ dc →
      handleExistingFile ctx dstRoot sp dp c m b = resolveConflict ctx dstRoot sp dp c m b) ∧
    (c = dc → m > dm →
      handleExistingFile ctx dstRoot sp dp c m b =
        { dst := replaceSub dstRoot dp (.file c m), ops := [.updated sp dp], err := none }) ∧
    (c = dc → ¬ m > dm →
      handleExistingFile ctx dstRoot sp dp c m b =
        { dst := dstRoot, ops := [], err := none }) := by
  refine ⟨fun hnec => ?_, fun hc hm => ?_, fun hc hm => ?_⟩
  · simp [handleExistingFile, hdst, hnec]
  · subst hc
    simp [handleExistingFile, hdst, hm, uploadFile_of_file dp dstRoot c dm b c m hne hdst]
  · subst hc
    simp [handleExistingFile, hdst, hm]

/-- Witness for C1 at concrete inputs: differing contents take the conflict
path; identical contents with an older source mtime do nothing. -/
theorem c1_checksum_precedes_mtime_witness :
    (handleExistingFile {} (.dir [("a.txt", .file "Y" 3)]) ["a.txt"] ["a.txt"] "X" 5 "a.txt" =
      resolveConflict {} (.dir [("a.txt", .file "Y" 3)]) ["a.txt"] ["a.txt"] "X" 5 "a.txt") ∧
    (handleExistingFile {} (.dir [("a.txt", .file "X" 3)]) ["a.txt"] ["a.txt"] "X" 2 "a.txt" =
      { dst := .dir [("a.txt", .file "X" 3)], ops := [], err := none }) :=
  ⟨(c1_checksum_precedes_mtime {} (.dir [("a.txt", .file "Y" 3)]) ["a.txt"] ["a.txt"]
      "X" 5 "a.txt" "Y" 3 (by decide) rfl).1 (by decide),
   (c1_checksum_precedes_mtime {} (.dir [("a.txt", .file "X" 3)]) ["a.txt"] ["a.txt"]
      "X" 2 "a.txt" "X" 3 (by decide) rfl).2.2 rfl (by decide)⟩

theorem lookupName_of_not_mem (cs : List (String × Entry)) (n : String)
    (h : n ∉ namesOf cs) : lookupName cs n = none := by
  induction cs with
  | nil => rfl
  | cons hd tl ih =>
    obtain ⟨m, x⟩ := hd
    rw [show namesOf ((m, x) :: tl) = m :: namesOf tl from rfl, List.mem_cons, not_or] at h
    have hne : ¬ (m = n) := fun e => h.1 e.symm
    simp only [lookupName, if_neg hne]
    exact ih h.2

theorem lookupName_removeChild_self (cs : List (String × Entry)) (n : String)
    (h : nodupB (namesOf cs) = true) : lookupName (removeChild cs n) n = none := by
  induction cs with
  | nil => rfl
  | cons hd tl ih =>
    obtain ⟨m, x⟩ := hd
    simp only [namesOf, List.map_cons, nodupB, Bool.and_eq_true, Bool.not_eq_true',
      decide_eq_false_iff_not] at h
    by_cases he : m = n
    · simp only [removeChild, if_pos he]
      exact lookupName_of_not_mem tl n (by simpa [namesOf, he] using h.1)
    · simp only [removeChild, if_neg he, lookupName, if_neg he]
      exact ih h.2

theorem deleteFile_absent (p : List String) : ∀ (root : Entry),
    getEntry root p = none → deleteFile root p = .error .fileSyncError := by
  induction p with
  | nil => intro root h; simp [getEntry] at h
  | cons n p' ih =>
    intro root h
    cases root with
    | file c m => cases p' <;> rfl
    | dir cs =>
      simp only [getEntry] at h
      cases hl : lookupName cs n with
      | none => cases p' <;> simp [deleteFile, hl]
      | some child =>
        rw [hl] at h
        cases p' with
        | nil => simp [getEntry] at h
        | cons n2 p2 => simp [deleteFile, hl, ih child h]

/-! ### C5 -/

/-- C5 counterexample: the code implements only the `prompt` and `rename`
conflict policies; a PreferSource policy value reaches the final else
branch, which only prints an invalid-option warning.  With source
`a.txt` = "X" and destination `a.txt` = "Y" the destination keeps "Y",
while the claim requires it to become "X". -/
theorem c5_counterexample :
    syncRecursive { conflictResolution := "prefer_source" }
        (.dir [("a.txt", .file "X" 1)]) (.dir [("a.txt", .file "Y" 0)]) [] =
      { dst := .dir [("a.txt", .file "Y" 0)],
        ops := [.warningInvalidOption "prefer_source"], err := none } := by
  simp [syncRecursive, syncDir, syncEntries, syncEntry, handleExistingFile, resolveConflict,
    destListing, getFileListD, getFileList, getEntry, lookupName, entryKind, deletionPhase,
    namesOf, uploadFile, createFolder, setChild]

/-- C5 amended: any `conflict_resolution` value other than `"prompt"` and
`"rename"` (which is where a PreferSource policy lands, the code having no
such branch) resolves a conflict by printing an invalid-option warning and
performing no write: the destination tree is returned unchanged. -/
theorem c5_invalid_policy_only_warns (ctx : Ctx) (dstRoot : Entry)
    (sp dp : List String) (c : String) (m : Nat) (b : String)
    (h1 : ctx.conflictResolution ≠ "prompt") (h2 : ctx.conflictResolution ≠ "rename") :
    resolveConflict ctx dstRoot sp dp c m b =
      { dst := dstRoot, ops := [.warningInvalidOption ctx.conflictResolution], err := none } := by
  unfold resolveConflict
  rw [if_neg h1, if_neg h2]

/-- Witness for the amended C5 at the concrete PreferSource scenario. -/
theorem c5_invalid_policy_only_warns_witness :
    resolveConflict { conflictResolution := "prefer_source" } (.dir [("a.txt", .file "Y" 0)])
        ["a.txt"] ["a.txt"] "X" 1 "a.txt" =
      { dst := .dir [("a.txt", .file "Y" 0)],
        ops := [.warningInvalidOption "prefer_source"], err := none } :=
  c5_invalid_policy_only_warns { conflictResolution := "prefer_source" }
    (.dir [("a.txt", .file "Y" 0)]) ["a.txt"] ["a.txt"] "X" 1 "a.txt"
    (by decide) (by decide)

/-! ### C7 -/

/-- C7 counterexample: `_rename_conflicting_file` performs no existence
check and appends no disambiguating counter.  Here the destination already
lists `a_conflict_2025-01-01T00-00-00.txt` (content "Z"), the rename path
produced for the conflict at `a.txt` is exactly that existing name, and the
upload overwrites it, contradicting the claimed never-overwrite guarantee. -/
theorem c7_counterexample :
    lookupName [("a.txt", Entry.file "Y" 0),
        ("a_conflict_2025-01-01T00-00-00.txt", Entry.file "Z" 9)]
        "a_conflict_2025-01-01T00-00-00.txt" = some (.file "Z" 9) ∧
    syncRecursive { conflictResolution := "rename", now := "2025-01-01T00-00-00" }
        (.dir [("a.txt", .file "X" 1)])
        (.dir [("a.txt", .file "Y" 0),
          ("a_conflict_2025-01-01T00-00-00.txt", .file "Z" 9)]) [] =
      { dst := .dir [("a.txt", .file "Y" 0),
          ("a_conflict_2025-01-01T00-00-00.txt", .file "X" 1)],
        ops := [.uploadedRenamed ["a.txt"] ["a_conflict_2025-01-01T00-00-00.txt"]],
        err := none } := by
  constructor
  · simp [lookupName]
  · simp [syncRecursive, syncDir, syncEntries, syncEntry, handleExistingFile, resolveConflict,
      destListing, getFileListD, getFileList, getEntry, lookupName, entryKind, deletionPhase,
      namesOf, uploadFile, createFolder, setChild, renameConflictingFile, splitext]

/-- C7 amended: the rename path is built by inserting `_conflict_` plus the
sync timestamp between the base name and the extension of the last path
component (`os.path.splitext`); no existence check is made and no counter
is appended, so a collision with an existing destination path is
overwritten by the subsequent upload. -/
theorem c7_rename_inserts_marker (d : List String) (n ts : String) :
    renameConflictingFile (d ++ [n]) ts =
      d ++ [(splitext n).1 ++ "_conflict_" ++ ts ++ (splitext n).2] := by
  induction d with
  | nil => rfl
  | cons x xs ih =>
    cases xs with
    | nil => rfl
    | cons y ys => simpa [renameConflictingFile] using ih

/-! ### C8 -/

/-- C8 counterexample: `LocalFileConnector.delete_file` on an already-absent
path raises (`os.remove` raises `FileNotFoundError`, wrapped into
`FileSynchronizationError`), while the claim requires the call to complete
without raising. -/
theorem c8_counterexample :
    deleteFile (.dir []) ["gone.txt"] = .error .fileSyncError := rfl

/-- C8 amended: `delete_file` on a folder removes the folder and everything
beneath it (`shutil.rmtree`), but the operation is not idempotent: deleting
a path that does not resolve is an error. -/
theorem c8_delete_recursive_not_idempotent (root : Entry) (p : List String)
    (cs sub : List (String × Entry)) (n : String) (q : List String) :
    (getEntry root p = none → deleteFile root p = .error .fileSyncError) ∧
    (lookupName cs n = some (.dir sub) → nodupB (namesOf cs) = true →
      deleteFile (.dir cs) [n] = .ok (.dir (removeChild cs n)) ∧
      getEntry (.dir (removeChild cs n)) (n :: q) = none) := by
  refine ⟨deleteFile_absent p root, fun hl hnd => ⟨?_, ?_⟩⟩
  · simp [deleteFile, hl]
  · simp [getEntry, lookupName_removeChild_self cs n hnd]

/-- Witness for the amended C8: deleting an absent path errors; deleting a
folder removes the file beneath it. -/
theorem c8_delete_recursive_not_idempotent_witness :
    (deleteFile (.dir []) ["absent.txt"] = .error .fileSyncError) ∧
    (deleteFile (.dir [("f", .dir [("x", .file "X" 0)])]) ["f"] =
        .ok (.dir []) ∧
      getEntry (.dir (removeChild [("f", Entry.dir [("x", Entry.file "X" 0)])] "f"))
        ["f", "x"] = none) :=
  ⟨(c8_delete_recursive_not_idempotent (.dir []) ["absent.txt"]
      [("f", .dir [("x", .file "X" 0)])] [("x", .file "X" 0)] "f" ["x"]).1 rfl,
   (c8_delete_recursive_not_idempotent (.dir []) ["absent.txt"]
      [("f", .dir [("x", .file "X" 0)])] [("x", .file "X" 0)] "f" ["x"]).2 rfl rfl⟩

/-! ### C2 -/

/-- C2 counterexample: with the source subfolder `suba` unreadable
(`get_file_list` raising, e.g. `AccessDenied`), the exception propagates
out of `_sync_recursive`: the pass aborts, and the sibling file `b.txt`
listed after `suba` is never uploaded (it is absent from the resulting
destination), while the claim requires the error to be recorded for that
path only and the siblings to be fully synced. -/
theorem c2_counterexample :
    syncRecursive { unreadable := [["suba"]] }
        (.dir [("suba", .dir []), ("b.txt", .file "B" 1)]) (.dir []) [] =
      { dst := .dir [("suba", .dir [])], ops := [.createdFolder ["suba"]],
        err := some .fileSyncError } ∧
    getEntry (syncRecursive { unreadable := [["suba"]] }
        (.dir [("suba", .dir []), ("b.txt", .file "B" 1)]) (.dir []) []).dst ["b.txt"] =
      none := by
  constructor <;>
    simp [syncRecursive, syncDir, syncEntries, syncEntry, handleExistingFile, resolveConflict,
      destListing, getFileListD, getFileList, getEntry, lookupName, entryKind, deletionPhase,
      namesOf, uploadFile, createFolder, setChild]

/-- C2 amended: an error raised while processing one path is not caught at
that path: it aborts the processing of all remaining entries of the pass
(the loop over source entries stops at the first erroring entry, leaving
the rest untouched), and it is caught only at the top of
`FileSyncTask.execute`.  The only per-path recovery is the destination
listing failure treated as an empty listing; no abort-by-policy mechanism
exists in the code. -/
theorem c2_per_path_error_aborts_pass (ctx : Ctx) (l1 l2 : List (String × Entry))
    (destNames : List String) (dstRoot : Entry) (rel : List String) (e : Err)
    (h : (syncEntries ctx l1 destNames dstRoot rel).err = some e) :
    syncEntries ctx (l1 ++ l2) destNames dstRoot rel =
      syncEntries ctx l1 destNames dstRoot rel := by
  induction l1 generalizing dstRoot with
  | nil => simp [syncEntries] at h
  | cons hd tl ih =>
    obtain ⟨n, ent⟩ := hd
    simp only [List.cons_append, syncEntries] at h ⊢
    cases he : (syncEntry ctx n ent destNames dstRoot rel).err with
    | some e2 => simp only [he]
    | none =>
      simp only [he] at h ⊢
      rw [ih _ h]

/-- Witness for the amended C2: the unreadable-subfolder error at `suba`
stops the loop before the sibling `b.txt` is processed. -/
theorem c2_per_path_error_aborts_pass_witness :
    syncEntries { unreadable := [["suba"]] }
        ([("suba", Entry.dir [])] ++ [("b.txt", Entry.file "B" 1)]) [] (.dir []) [] =
      syncEntries { unreadable := [["suba"]] } [("suba", Entry.dir [])] [] (.dir []) [] :=
  c2_per_path_error_aborts_pass { unreadable := [["suba"]] } [("suba", Entry.dir [])]
    [("b.txt", Entry.file "B" 1)] [] (.dir []) [] .fileSyncError
    (by simp [syncEntries, syncEntry, destListing, getFileListD, getFileList, getEntry,
      lookupName, entryKind, deletionPhase, namesOf, uploadFile, createFolder, setChild,
      syncDir])

/-! ### C3 -/

theorem deletionPhase_ops_deletes (rel : List String) (srcNames : List String) :
    ∀ (l : List (String × EntryKind)) (dstRoot : Entry),
      ∀ op ∈ (deletionPhase dstRoot rel srcNames l).ops, isDeleteOp op = true := by
  intro l
  induction l with
  | nil => intro dst op h; simp [deletionPhase] at h
  | cons hd tl ih =>
    intro dst op h
    obtain ⟨n, k⟩ := hd
    simp only [deletionPhase] at h
    by_cases hm : n ∈ srcNames
    · rw [if_pos hm] at h
      exact ih dst op h
    · rw [if_neg hm] at h
      cases hd2 : deleteFile dst (rel ++ [n]) with
      | error e => rw [hd2] at h; simp at h
      | ok d' =>
        rw [hd2] at h
        simp only [List.mem_cons] at h
        cases h with
        | inl heq => subst heq; cases k <;> simp [isDeleteOp]
        | inr ht => exact ih d' op ht

/-- C3 counterexample: with the delete option on, a name present on both
sides is not extraneous, so nothing is deleted; the differing contents make
it a conflict instead.  Under the `rename` policy the old destination
`x.txt` (content "Y") stays in place next to the renamed upload, so the
resulting destination does not hold exactly the source's `x.txt`,
contradicting the claimed consequence. -/
theorem c3_counterexample :
    syncRecursive { delete := true, conflictResolution := "rename", now := "TS" }
        (.dir [("x.txt", .file "X" 5)]) (.dir [("x.txt", .file "Y" 3)]) [] =
      { dst := .dir [("x.txt", .file "Y" 3), ("x_conflict_TS.txt", .file "X" 5)],
        ops := [.uploadedRenamed ["x.txt"] ["x_conflict_TS.txt"]], err := none } ∧
    getEntry (syncRecursive { delete := true, conflictResolution := "rename", now := "TS" }
        (.dir [("x.txt", .file "X" 5)]) (.dir [("x.txt", .file "Y" 3)]) []).dst ["x.txt"] =
      some (.file "Y" 3) := by
  constructor <;>
    simp [syncRecursive, syncDir, syncEntries, syncEntry, handleExistingFile, resolveConflict,
      destListing, getFileListD, getFileList, getEntry, lookupName, entryKind, deletionPhase,
      namesOf, uploadFile, createFolder, setChild, renameConflictingFile, splitext]

/-- C3 amended: with the delete option on, every operation of the deletion
phase is a deletion of a destination entry whose name is absent from the
source listing, and the record of a directory level starts with exactly the
deletion-phase operations: all deletions at a level precede every upload,
folder creation and conflict rename of that level.  A name present on both
sides is handled by conflict resolution instead, so the destination need
not end up holding exactly the source's file. -/
theorem c3_deletions_before_additions (ctx : Ctx) (children : List (String × Entry))
    (dstRoot : Entry) (rel : List String) (hdel : ctx.delete = true) :
    (∀ op ∈ (deletionPhase dstRoot rel (namesOf children) (destListing ctx dstRoot rel)).ops,
      isDeleteOp op = true) ∧
    ∃ rest, (syncDir ctx children dstRoot rel).ops =
      (deletionPhase dstRoot rel (namesOf children) (destListing ctx dstRoot rel)).ops ++
        rest := by
  refine ⟨deletionPhase_ops_deletes rel (namesOf children) _ dstRoot, ?_⟩
  simp only [syncDir, hdel, if_true]
  cases herr : (deletionPhase dstRoot rel (namesOf children) (destListing ctx dstRoot rel)).err with
  | some e => exact ⟨[], by simp [herr]⟩
  | none =>
    refine ⟨(syncEntries ctx children ((destListing ctx dstRoot rel).map (·.1))
      (deletionPhase dstRoot rel (namesOf children) (destListing ctx dstRoot rel)).dst rel).ops,
      ?_⟩
    simp [herr]

/-- Witness for the amended C3 at the both-sides `x.txt` scenario. -/
theorem c3_deletions_before_additions_witness :
    (∀ op ∈ (deletionPhase (.dir [("x.txt", .file "Y" 3)]) [] (namesOf [("x.txt", Entry.file "X" 5)])
        (destListing { delete := true, conflictResolution := "rename", now := "TS" }
          (.dir [("x.txt", .file "Y" 3)]) [])).ops, isDeleteOp op = true) ∧
    ∃ rest, (syncDir { delete := true, conflictResolution := "rename", now := "TS" }
        [("x.txt", Entry.file "X" 5)] (.dir [("x.txt", .file "Y" 3)]) []).ops =
      (deletionPhase (.dir [("x.txt", .file "Y" 3)]) [] (namesOf [("x.txt", Entry.file "X" 5)])
        (destListing { delete := true, conflictResolution := "rename", now := "TS" }
          (.dir [("x.txt", .file "Y" 3)]) [])).ops ++ rest :=
  c3_deletions_before_additions { delete := true, conflictResolution := "rename", now := "TS" }
    [("x.txt", Entry.file "X" 5)] (.dir [("x.txt", .file "Y" 3)]) [] rfl

/-! ### C6 -/

/-- C6 (code bug): a type mismatch is not surfaced as an error for the
mismatched path.  With source folder `d` (empty) against destination file
`d`, the code recurses into `d`: the destination listing of the file path
raises, the except clause silently turns it into an empty listing, and the
pass completes with no error and no operation at all.  (In the opposite
direction, a source file against a destination folder raises
`IsADirectoryError` inside `_calculate_checksum`, aborting the whole pass
instead of surfacing a per-path error.) -/
theorem c6_type_mismatch_not_surfaced :
    syncRecursive {} (.dir [("d", .dir [])]) (.dir [("d", .file "Z" 0)]) [] =
      { dst := .dir [("d", .file "Z" 0)], ops := [], err := none } := by
  simp [syncRecursive, syncDir, syncEntries, syncEntry, handleExistingFile, resolveConflict,
    destListing, getFileListD, getFileList, getEntry, lookupName, entryKind, deletionPhase,
    namesOf, uploadFile, createFolder, setChild]

/-! ### C9 and C10 -/

theorem syncDir_of_empty_listing (ctx : Ctx) (children : List (String × Entry))
    (dstRoot : Entry) (rel : List String) (hl : destListing ctx dstRoot rel = []) :
    syncDir ctx children dstRoot rel = syncEntries ctx children [] dstRoot rel := by
  simp only [syncDir, hl]
  cases hd : ctx.delete <;> simp [deletionPhase]

/-- C9: when the destination path of a directory level does not resolve
(`NotFound` from the destination listing), the except clause turns the
listing into the empty entry set and the level proceeds through the normal
reconciliation of the source entries (creating and uploading against an
empty destination) instead of propagating the failure. -/
theorem c9_absent_destination_treated_empty (ctx : Ctx) (children : List (String × Entry))
    (dstRoot : Entry) (rel : List String) (h : getEntry dstRoot rel = none) :
    syncDir ctx children dstRoot rel = syncEntries ctx children [] dstRoot rel := by
  apply syncDir_of_empty_listing
  by_cases hf : rel ∈ ctx.destListFails
  · simp [destListing, getFileListD, hf]
  · simp [destListing, getFileListD, hf, getFileList, h]

/-- Witness for C9 at a concrete absent destination directory. -/
theorem c9_absent_destination_treated_empty_witness :
    syncDir {} [("sub", Entry.dir [])] (.dir []) ["d"] =
      syncEntries {} [("sub", Entry.dir [])] [] (.dir []) ["d"] :=
  c9_absent_destination_treated_empty {} [("sub", Entry.dir [])] (.dir []) ["d"] rfl

/-- C10: every failure kind of the destination listing (absent path, a
non-directory path, or any injected backend/permission fault) is silently
turned into the empty destination entry set, after which the level
reconciles every source entry against an empty destination (so every
source file at that level takes the plain upload branch); a failure of the
source listing, by contrast, propagates out of the recursive step as the
pass-aborting exception. -/
theorem c10_destination_failures_swallowed (ctx : Ctx) (children : List (String × Entry))
    (src dstRoot : Entry) (rel : List String) (e : Err) :
    (getFileListD ctx dstRoot rel = .error e →
      syncDir ctx children dstRoot rel = syncEntries ctx children [] dstRoot rel) ∧
    (rel ∈ ctx.unreadable →
      syncRecursive ctx src dstRoot rel =
        { dst := dstRoot, ops := [], err := some .fileSyncError }) := by
  constructor
  · intro h
    exact syncDir_of_empty_listing ctx children dstRoot rel (by simp [destListing, h])
  · intro h
    simp [syncRecursive, h]

/-- Witness for C10: an injected destination-listing fault on an existing
directory is swallowed, while the same path being source-unreadable aborts. -/
theorem c10_destination_failures_swallowed_witness :
    (syncDir { unreadable := [[]], destListFails := [[]] } [("a.txt", Entry.file "X" 1)]
        (.dir [("old", .file "O" 0)]) [] =
      syncEntries { unreadable := [[]], destListFails := [[]] } [("a.txt", Entry.file "X" 1)]
        [] (.dir [("old", .file "O" 0)]) []) ∧
    (syncRecursive { unreadable := [[]], destListFails := [[]] } (.dir [("a.txt", .file "X" 1)])
        (.dir [("old", .file "O" 0)]) [] =
      { dst := .dir [("old", .file "O" 0)], ops := [], err := some .fileSyncError }) :=
  ⟨(c10_destination_failures_swallowed { unreadable := [[]], destListFails := [[]] }
      [("a.txt", Entry.file "X" 1)] (.dir [("a.txt", .file "X" 1)])
      (.dir [("old", .file "O" 0)]) [] .fileSyncError).1 (by simp [getFileListD]),
   (c10_destination_failures_swallowed { unreadable := [[]], destListFails := [[]] }
      [("a.txt", Entry.file "X" 1)] (.dir [("a.txt", .file "X" 1)])
      (.dir [("old", .file "O" 0)]) [] .fileSyncError).2 (by simp)⟩

/-! ### C4 -/

/-- C4 counterexample: source unchanged between two runs, `rename` policy,
a standing conflict at `x.txt`.  The second run detects the same conflict
again and performs another upload (to the same timestamped name), so its
uploaded record is not empty, contradicting the claimed idempotence. -/
theorem c4_counterexample :
    ((syncRecursive { conflictResolution := "rename", now := "T1" }
        (.dir [("x.txt", .file "X" 5)])
        (syncRecursive { conflictResolution := "rename", now := "T1" }
          (.dir [("x.txt", .file "X" 5)]) (.dir [("x.txt", .file "Y" 3)]) []).dst
        []).ops.filter isUploadOp) =
      [.uploadedRenamed ["x.txt"] ["x_conflict_T1.txt"]] := by
  simp [syncRecursive, syncDir, syncEntries, syncEntry, handleExistingFile, resolveConflict,
    destListing, getFileListD, getFileList, getEntry, lookupName, entryKind, deletionPhase,
    namesOf, uploadFile, createFolder, setChild, renameConflictingFile, splitext, isUploadOp]

/-! ### Children-list lemmas for the idempotence analysis (C4) -/

theorem lookupName_setChild_self (cs : List (String × Entry)) (n : String) (x : Entry) :
    lookupName (setChild cs n x) n = some x := by
  induction cs with
  | nil => simp [setChild, lookupName]
  | cons hd tl ih =>
    obtain ⟨m, e⟩ := hd
    by_cases he : m = n
    · simp [setChild, he, lookupName]
    · simp [setChild, he, lookupName, ih]

theorem lookupName_setChild_ne (cs : List (String × Entry)) (n m : String) (x : Entry)
    (h : m ≠ n) : lookupName (setChild cs n x) m = lookupName cs m := by
  have hnm : ¬ (n = m) := fun e => h e.symm
  induction cs with
  | nil => simp [setChild, lookupName, hnm]
  | cons hd tl ih =>
    obtain ⟨k, e⟩ := hd
    by_cases hk : k = n
    · subst hk
      simp [setChild, lookupName, hnm]
    · simp [setChild, hk, lookupName, ih]

theorem setChild_lookup_self (cs : List (String × Entry)) (n : String) (x : Entry)
    (h : lookupName cs n = some x) : setChild cs n x = cs := by
  induction cs with
  | nil => simp [lookupName] at h
  | cons hd tl ih =>
    obtain ⟨m, e⟩ := hd
    by_cases he : m = n
    · subst he
      rw [show lookupName ((m, e) :: tl) m = some e by simp [lookupName]] at h
      injection h with h2
      simp [setChild, h2]
    · simp only [lookupName, if_neg he] at h
      simp [setChild, he, ih h]

theorem setChild_setChild (cs : List (String × Entry)) (n : String) (a b : Entry) :
    setChild (setChild cs n a) n b = setChild cs n b := by
  induction cs with
  | nil => simp [setChild]
  | cons hd tl ih =>
    obtain ⟨m, e⟩ := hd
    by_cases he : m = n
    · simp [setChild, he]
    · simp [setChild, he, ih]

theorem mem_setChild (cs : List (String × Entry)) (n : String) (x : Entry)
    (p : String × Entry) (h : p ∈ setChild cs n x) : p = (n, x) ∨ p ∈ cs := by
  induction cs with
  | nil => simpa [setChild] using h
  | cons hd tl ih =>
    obtain ⟨m, e⟩ := hd
    by_cases he : m = n
    · rw [setChild, if_pos he] at h
      rcases List.mem_cons.mp h with h1 | h1
      · exact Or.inl h1
      · exact Or.inr (List.mem_cons_of_mem _ h1)
    · rw [setChild, if_neg he] at h
      rcases List.mem_cons.mp h with h1 | h1
      · exact Or.inr (h1 ▸ List.mem_cons_self _ _)
      · rcases ih h1 with h2 | h2
        · exact Or.inl h2
        · exact Or.inr (List.mem_cons_of_mem _ h2)

theorem name_mem_of_mem (cs : List (String × Entry)) (p : String × Entry) (h : p ∈ cs) :
    p.1 ∈ namesOf cs :=
  List.mem_map_of_mem (·.1) h

theorem lookupName_isSome_iff (cs : List (String × Entry)) (n : String) :
    (lookupName cs n).isSome = true ↔ n ∈ namesOf cs := by
  induction cs with
  | nil => simp [lookupName, namesOf]
  | cons hd tl ih =>
    obtain ⟨m, e⟩ := hd
    by_cases he : m = n
    · simp [lookupName, he, namesOf]
    · rw [show namesOf ((m, e) :: tl) = m :: namesOf tl from rfl]
      simp only [lookupName, if_neg he, List.mem_cons]
      rw [ih]
      constructor
      · exact Or.inr
      · rintro (h1 | h1)
        · exact absurd h1.symm he
        · exact h1

theorem lookupName_some_of_mem_names (cs : List (String × Entry)) (n : String)
    (h : n ∈ namesOf cs) : ∃ y, lookupName cs n = some y := by
  have := (lookupName_isSome_iff cs n).mpr h
  cases hl : lookupName cs n with
  | none => rw [hl] at this; simp at this
  | some y => exact ⟨y, rfl⟩

theorem not_mem_names_of_lookupName_none (cs : List (String × Entry)) (n : String)
    (h : lookupName cs n = none) : n ∉ namesOf cs := by
  intro hm
  have := (lookupName_isSome_iff cs n).mpr hm
  rw [h] at this
  simp at this

theorem namesOf_setChild_of_some (cs : List (String × Entry)) (n : String) (x y : Entry)
    (h : lookupName cs n = some y) : namesOf (setChild cs n x) = namesOf cs := by
  induction cs with
  | nil => simp [lookupName] at h
  | cons hd tl ih =>
    obtain ⟨m, e⟩ := hd
    by_cases he : m = n
    · simp [setChild, he, namesOf]
    · simp only [lookupName, if_neg he] at h
      simp only [setChild, if_neg he]
      rw [show namesOf ((m, e) :: setChild tl n x) = m :: namesOf (setChild tl n x) from rfl,
        show namesOf ((m, e) :: tl) = m :: namesOf tl from rfl, ih h]

theorem namesOf_setChild_of_none (cs : List (String × Entry)) (n : String) (x : Entry)
    (h : lookupName cs n = none) : namesOf (setChild cs n x) = namesOf cs ++ [n] := by
  induction cs with
  | nil => simp [setChild, namesOf]
  | cons hd tl ih =>
    obtain ⟨m, e⟩ := hd
    by_cases he : m = n
    · simp [lookupName, he] at h
    · simp only [lookupName, if_neg he] at h
      simp only [setChild, if_neg he]
      rw [show namesOf ((m, e) :: setChild tl n x) = m :: namesOf (setChild tl n x) from rfl,
        show namesOf ((m, e) :: tl) = m :: namesOf tl from rfl, ih h, List.cons_append]

theorem nodupB_append_single (l : List String) (n : String) (h1 : nodupB l = true)
    (h2 : n ∉ l) : nodupB (l ++ [n]) = true := by
  induction l with
  | nil => simp [nodupB]
  | cons x xs ih =>
    simp only [List.mem_cons, not_or] at h2
    simp only [nodupB, Bool.and_eq_true, Bool.not_eq_true', decide_eq_false_iff_not] at h1
    have hge : x ∉ xs ++ [n] := by
      intro hx
      rcases List.mem_append.mp hx with hx1 | hx1
      · exact h1.1 hx1
      · exact h2.1 (List.mem_singleton.mp hx1).symm
    simp only [List.cons_append, nodupB, Bool.and_eq_true, Bool.not_eq_true',
      decide_eq_false_iff_not]
    exact ⟨hge, ih h1.2 h2.2⟩

theorem nodupB_setChild (cs : List (String × Entry)) (n : String) (x : Entry)
    (hnd : nodupB (namesOf cs) = true) : nodupB (namesOf (setChild cs n x)) = true := by
  cases hl : lookupName cs n with
  | some y => rw [namesOf_setChild_of_some cs n x y hl]; exact hnd
  | none =>
    rw [namesOf_setChild_of_none cs n x hl]
    exact nodupB_append_single _ _ hnd (not_mem_names_of_lookupName_none cs n hl)

theorem childrenWf_mem (cs : List (String × Entry)) (p : String × Entry)
    (h : childrenWf cs = true) (hm : p ∈ cs) : entryWf p.2 = true := by
  induction cs with
  | nil => simp at hm
  | cons hd tl ih =>
    obtain ⟨m, e⟩ := hd
    simp only [childrenWf, Bool.and_eq_true] at h
    rcases List.mem_cons.mp hm with h1 | h1
    · rw [h1]; exact h.1
    · exact ih h.2 h1

theorem mem_of_lookupName (cs : List (String × Entry)) (n : String) (y : Entry)
    (h : lookupName cs n = some y) : (n, y) ∈ cs := by
  induction cs with
  | nil => simp [lookupName] at h
  | cons hd tl ih =>
    obtain ⟨m, e⟩ := hd
    by_cases he : m = n
    · subst he
      rw [show lookupName ((m, e) :: tl) m = some e by simp [lookupName]] at h
      injection h with h2
      subst h2
      exact List.mem_cons_self _ _
    · simp only [lookupName, if_neg he] at h
      exact List.mem_cons_of_mem _ (ih h)

theorem entryWf_lookup (cs : List (String × Entry)) (n : String) (y : Entry)
    (hwf : childrenWf cs = true) (h : lookupName cs n = some y) : entryWf y = true :=
  childrenWf_mem cs (n, y) hwf (mem_of_lookupName cs n y h)

theorem childrenWf_setChild (cs : List (String × Entry)) (n : String) (x : Entry)
    (hwf : childrenWf cs = true) (hx : entryWf x = true) :
    childrenWf (setChild cs n x) = true := by
  induction cs with
  | nil => simp [setChild, childrenWf, hx]
  | cons hd tl ih =>
    obtain ⟨m, e⟩ := hd
    simp only [childrenWf, Bool.and_eq_true] at hwf
    by_cases he : m = n
    · simp [setChild, he, childrenWf, hx, hwf.2]
    · simp [setChild, he, childrenWf, hwf.1, ih hwf.2]

theorem mem_removeChild (cs : List (String × Entry)) (n : String) (p : String × Entry)
    (h : p ∈ removeChild cs n) : p ∈ cs := by
  induction cs with
  | nil => simp [removeChild] at h
  | cons hd tl ih =>
    obtain ⟨m, e⟩ := hd
    by_cases he : m = n
    · rw [removeChild, if_pos he] at h
      exact List.mem_cons_of_mem _ h
    · rw [removeChild, if_neg he] at h
      rcases List.mem_cons.mp h with h1 | h1
      · exact h1 ▸ List.mem_cons_self _ _
      · exact List.mem_cons_of_mem _ (ih h1)

theorem lookupName_removeChild_ne (cs : List (String × Entry)) (n m : String)
    (h : m ≠ n) : lookupName (removeChild cs n) m = lookupName cs m := by
  induction cs with
  | nil => simp [removeChild]
  | cons hd tl ih =>
    obtain ⟨k, e⟩ := hd
    by_cases hk : k = n
    · subst hk
      have hkm : ¬ (k = m) := fun e2 => h (e2.symm.trans rfl)
      simp [removeChild, lookupName, hkm]
    · simp [removeChild, hk, lookupName, ih]

theorem mem_names_removeChild (cs : List (String × Entry)) (n m : String)
    (h : m ∈ namesOf (removeChild cs n)) : m ∈ namesOf cs := by
  rcases List.mem_map.mp h with ⟨p, hp, he⟩
  exact he ▸ name_mem_of_mem cs p (mem_removeChild cs n p hp)

theorem nodupB_removeChild (cs : List (String × Entry)) (n : String)
    (h : nodupB (namesOf cs) = true) : nodupB (namesOf (removeChild cs n)) = true := by
  induction cs with
  | nil => simp [removeChild, namesOf, nodupB]
  | cons hd tl ih =>
    obtain ⟨m, e⟩ := hd
    rw [show namesOf ((m, e) :: tl) = m :: namesOf tl from rfl] at h
    simp only [nodupB, Bool.and_eq_true, Bool.not_eq_true', decide_eq_false_iff_not] at h
    by_cases he : m = n
    · rw [removeChild, if_pos he]
      exact h.2
    · rw [removeChild, if_neg he]
      rw [show namesOf ((m, e) :: removeChild tl n) = m :: namesOf (removeChild tl n) from rfl]
      simp only [nodupB, Bool.and_eq_true, Bool.not_eq_true', decide_eq_false_iff_not]
      exact ⟨fun hm => h.1 (mem_names_removeChild tl n m hm), ih h.2⟩

theorem childrenWf_removeChild (cs : List (String × Entry)) (n : String)
    (h : childrenWf cs = true) : childrenWf (removeChild cs n) = true := by
  induction cs with
  | nil => simpa [removeChild] using h
  | cons hd tl ih =>
    obtain ⟨m, e⟩ := hd
    simp only [childrenWf, Bool.and_eq_true] at h
    by_cases he : m = n
    · rw [removeChild, if_pos he]
      exact h.2
    · rw [removeChild, if_neg he]
      simp only [childrenWf, Bool.and_eq_true]
      exact ⟨h.1, ih h.2⟩

theorem mem_removeChild_fst_ne (cs : List (String × Entry)) (n : String) (p : String × Entry)
    (hnd : nodupB (namesOf cs) = true) (h : p ∈ removeChild cs n) : p.1 ≠ n := by
  induction cs with
  | nil => simp [removeChild] at h
  | cons hd tl ih =>
    obtain ⟨m, e⟩ := hd
    rw [show namesOf ((m, e) :: tl) = m :: namesOf tl from rfl] at hnd
    simp only [nodupB, Bool.and_eq_true, Bool.not_eq_true', decide_eq_false_iff_not] at hnd
    by_cases he : m = n
    · rw [removeChild, if_pos he] at h
      intro hp
      apply hnd.1
      have hmem := name_mem_of_mem tl p h
      rw [hp, ← he] at hmem
      exact hmem
    · rw [removeChild, if_neg he] at h
      rcases List.mem_cons.mp h with h1 | h1
      · rw [h1]; exact he
      · exact ih hnd.2 h1

theorem getEntry_dir_single (ds : List (String × Entry)) (n : String) :
    getEntry (.dir ds) [n] = lookupName ds n := by
  cases hl : lookupName ds n <;> simp [getEntry, hl]

theorem getEntry_replaceSub (rel : List String) : ∀ (d y x : Entry),
    getEntry d rel = some y → getEntry (replaceSub d rel x) rel = some x := by
  induction rel with
  | nil => intro d y x _; simp [replaceSub, getEntry]
  | cons n rel' ih =>
    intro d y x h
    cases d with
    | file c m => simp [getEntry] at h
    | dir cs =>
      simp only [getEntry] at h
      cases hl : lookupName cs n with
      | none => rw [hl] at h; simp at h
      | some child =>
        rw [hl] at h
        simp only [replaceSub, hl, getEntry, lookupName_setChild_self]
        exact ih child y x h

theorem replaceSub_replaceSub (rel : List String) : ∀ (d y a b : Entry),
    getEntry d rel = some y → replaceSub (replaceSub d rel a) rel b = replaceSub d rel b := by
  induction rel with
  | nil => intro d y a b _; simp [replaceSub]
  | cons n rel' ih =>
    intro d y a b h
    cases d with
    | file c m => simp [getEntry] at h
    | dir cs =>
      simp only [getEntry] at h
      cases hl : lookupName cs n with
      | none => rw [hl] at h; simp at h
      | some child =>
        rw [hl] at h
        simp only [replaceSub, hl, lookupName_setChild_self, setChild_setChild,
          ih child y a b h]

theorem replaceSub_self (rel : List String) : ∀ (d y : Entry),
    getEntry d rel = some y → replaceSub d rel y = d := by
  induction rel with
  | nil =>
    intro d y h
    simp only [getEntry, Option.some.injEq] at h
    simp [replaceSub, h]
  | cons n rel' ih =>
    intro d y h
    cases d with
    | file c m => simp [getEntry] at h
    | dir cs =>
      simp only [getEntry] at h
      cases hl : lookupName cs n with
      | none => rw [hl] at h; simp at h
      | some child =>
        rw [hl] at h
        simp only [replaceSub, hl, ih child y h, setChild_lookup_self cs n child hl]

theorem replaceSub_append_last (rel : List String) : ∀ (d : Entry)
    (ds : List (String × Entry)) (n : String) (y x : Entry),
    getEntry d rel = some (.dir ds) → lookupName ds n = some y →
    replaceSub d (rel ++ [n]) x = replaceSub d rel (.dir (setChild ds n x)) := by
  induction rel with
  | nil =>
    intro d ds n y x h hl
    simp only [getEntry, Option.some.injEq] at h
    subst h
    simp [replaceSub, hl]
  | cons r rel' ih =>
    intro d ds n y x h hl
    cases d with
    | file c m => simp [getEntry] at h
    | dir cs =>
      simp only [getEntry] at h
      cases hc : lookupName cs r with
      | none => rw [hc] at h; simp at h
      | some child =>
        rw [hc] at h
        simp only [List.cons_append, List.append_eq, replaceSub, hc, ih child ds n y x h hl]

theorem getFileList_dir (d : Entry) (rel : List String) (ds : List (String × Entry))
    (h : getEntry d rel = some (.dir ds)) :
    getFileList d rel = .ok (ds.map fun c => (c.1, entryKind c.2)) := by
  simp [getFileList, h]

theorem uploadFile_append (rel : List String) : ∀ (d : Entry) (ds : List (String × Entry))
    (n b c : String) (m : Nat),
    getEntry d rel = some (.dir ds) → (∀ sub, lookupName ds n ≠ some (.dir sub)) →
    uploadFile d (rel ++ [n]) b c m =
      .ok (replaceSub d rel (.dir (setChild ds n (.file c m)))) := by
  induction rel with
  | nil =>
    intro d ds n b c m h hno
    simp only [getEntry, Option.some.injEq] at h
    subst h
    cases hl : lookupName ds n with
    | none => simp [uploadFile, hl, replaceSub]
    | some y =>
      cases y with
      | file c0 m0 => simp [uploadFile, hl, replaceSub]
      | dir sub => exact absurd hl (hno sub)
  | cons r rel' ih =>
    intro d ds n b c m h hno
    cases d with
    | file c0 m0 => simp [getEntry] at h
    | dir cs =>
      simp only [getEntry] at h
      cases hc : lookupName cs r with
      | none => rw [hc] at h; simp at h
      | some child =>
        rw [hc] at h
        cases rel' with
        | nil =>
          simp only [getEntry, Option.some.injEq] at h
          subst h
          cases hl : lookupName ds n with
          | none => simp [uploadFile, hc, hl, replaceSub]
          | some y =>
            cases y with
            | file c1 m1 => simp [uploadFile, hc, hl, replaceSub]
            | dir sub => exact absurd hl (hno sub)
        | cons r2 rel2 =>
          have hrec := ih child ds n b c m h hno
          simp only [List.cons_append] at hrec ⊢
          simp only [uploadFile, hc]
          rw [hrec]
          simp [replaceSub, hc]

theorem createFolder_append_new (rel : List String) : ∀ (d : Entry)
    (ds : List (String × Entry)) (n : String),
    getEntry d rel = some (.dir ds) → lookupName ds n = none →
    createFolder d (rel ++ [n]) = .ok (replaceSub d rel (.dir (setChild ds n (.dir [])))) := by
  induction rel with
  | nil =>
    intro d ds n h hl
    simp only [getEntry, Option.some.injEq] at h
    subst h
    simp [createFolder, hl, replaceSub]
  | cons r rel' ih =>
    intro d ds n h hl
    cases d with
    | file c0 m0 => simp [getEntry] at h
    | dir cs =>
      simp only [getEntry] at h
      cases hc : lookupName cs r with
      | none => rw [hc] at h; simp at h
      | some child =>
        rw [hc] at h
        simp only [List.cons_append, List.append_eq, createFolder, hc, ih child ds n h hl, replaceSub]

theorem deleteFile_append (rel : List String) : ∀ (d : Entry) (ds : List (String × Entry))
    (n : String) (y : Entry),
    getEntry d rel = some (.dir ds) → lookupName ds n = some y →
    deleteFile d (rel ++ [n]) = .ok (replaceSub d rel (.dir (removeChild ds n))) := by
  induction rel with
  | nil =>
    intro d ds n y h hl
    simp only [getEntry, Option.some.injEq] at h
    subst h
    simp [deleteFile, hl, replaceSub]
  | cons r rel' ih =>
    intro d ds n y h hl
    cases d with
    | file c0 m0 => simp [getEntry] at h
    | dir cs =>
      simp only [getEntry] at h
      cases hc : lookupName cs r with
      | none => rw [hc] at h; simp at h
      | some child =>
        rw [hc] at h
        cases rel' with
        | nil =>
          simp only [getEntry, Option.some.injEq] at h
          subst h
          simp [deleteFile, hc, hl, replaceSub]
        | cons r2 rel2 =>
          have hrec := ih child ds n y h hl
          simp only [List.cons_append] at hrec ⊢
          simp only [deleteFile, hc]
          rw [hrec]
          simp [replaceSub, hc]

theorem uploadFile_through_file (rel : List String) : ∀ (d : Entry) (c0 : String) (m0 : Nat)
    (n b c : String) (m : Nat), getEntry d rel = some (.file c0 m0) →
    uploadFile d (rel ++ [n]) b c m = .error .fileSyncError := by
  induction rel with
  | nil =>
    intro d c0 m0 n b c m h
    simp only [getEntry, Option.some.injEq] at h
    subst h
    simp [uploadFile]
  | cons r rel' ih =>
    intro d c0 m0 n b c m h
    cases d with
    | file c1 m1 => cases rel' <;> simp [uploadFile]
    | dir cs =>
      simp only [getEntry] at h
      cases hc : lookupName cs r with
      | none =>
        rw [hc] at h
        simp at h
      | some child =>
        rw [hc] at h
        cases rel' with
        | nil =>
          simp only [getEntry, Option.some.injEq] at h
          subst h
          simp [uploadFile, hc]
        | cons r2 rel2 =>
          have hrec := ih child c0 m0 n b c m h
          simp only [List.cons_append] at hrec ⊢
          simp only [uploadFile, hc]
          rw [hrec]

theorem createFolder_through_file (rel : List String) : ∀ (d : Entry) (c0 : String) (m0 : Nat)
    (n : String), getEntry d rel = some (.file c0 m0) →
    createFolder d (rel ++ [n]) = .error .fileSyncError := by
  induction rel with
  | nil =>
    intro d c0 m0 n h
    simp only [getEntry, Option.some.injEq] at h
    subst h
    simp [createFolder]
  | cons r rel' ih =>
    intro d c0 m0 n h
    cases d with
    | file c1 m1 => simp [createFolder]
    | dir cs =>
      simp only [getEntry] at h
      cases hc : lookupName cs r with
      | none =>
        rw [hc] at h
        simp at h
      | some child =>
        rw [hc] at h
        simp only [List.cons_append, List.append_eq, createFolder, hc, ih child c0 m0 n h]

theorem resolveConflict_not_clean (ctx : Ctx) (d : Entry) (sp dp : List String)
    (c : String) (m : Nat) (b : String)
    (herr : (resolveConflict ctx d sp dp c m b).err = none)
    (hops : noConflictOps (resolveConflict ctx d sp dp c m b).ops = true) : False := by
  unfold resolveConflict at herr hops
  by_cases h1 : ctx.conflictResolution = "prompt"
  · rw [if_pos h1] at herr hops
    cases hpc : ctx.promptChoice sp dp with
    | source =>
      cases hu : uploadFile d dp b c m with
      | error e => simp [hpc, hu] at herr
      | ok d' => simp [hpc, hu, noConflictOps, isConflictOp] at hops
    | destination => simp [hpc, noConflictOps, isConflictOp] at hops
    | cancel => simp [hpc, noConflictOps, isConflictOp] at hops
  · rw [if_neg h1] at herr hops
    by_cases h2 : ctx.conflictResolution = "rename"
    · rw [if_pos h2] at herr hops
      cases hu : uploadFile d (renameConflictingFile dp ctx.now) b c m with
      | error e => simp [hu] at herr
      | ok d' => simp [hu, noConflictOps, isConflictOp] at hops
    · rw [if_neg h2] at hops
      simp [noConflictOps, isConflictOp] at hops

theorem deletionPhase_all_kept (d : Entry) (rel : List String) (srcNames : List String) :
    ∀ (l : List (String × EntryKind)), (∀ p ∈ l, p.1 ∈ srcNames) →
      deletionPhase d rel srcNames l = { dst := d, ops := [], err := none } := by
  intro l
  induction l with
  | nil => simp [deletionPhase]
  | cons hd tl ih =>
    intro h
    obtain ⟨n, k⟩ := hd
    have hn : n ∈ srcNames := h (n, k) (List.mem_cons_self _ _)
    rw [show deletionPhase d rel srcNames ((n, k) :: tl) = deletionPhase d rel srcNames tl
      from by simp [deletionPhase, hn]]
    exact ih fun p hp => h p (List.mem_cons_of_mem _ hp)

theorem destListing_of_dir (ctx : Ctx) (d : Entry) (rel : List String)
    (ds : List (String × Entry)) (hdf : ctx.destListFails = [])
    (h : getEntry d rel = some (.dir ds)) :
    destListing ctx d rel = ds.map fun c => (c.1, entryKind c.2) := by
  simp [destListing, getFileListD, hdf, getFileList, h]

theorem destListing_of_file (ctx : Ctx) (d : Entry) (rel : List String)
    (c0 : String) (m0 : Nat) (h : getEntry d rel = some (.file c0 m0)) :
    destListing ctx d rel = [] := by
  by_cases hf : rel ∈ ctx.destListFails
  · simp [destListing, getFileListD, hf]
  · simp [destListing, getFileListD, hf, getFileList, h]

theorem syncDir_at_file (ctx : Ctx) (children : List (String × Entry)) (d : Entry)
    (rel : List String) (c0 : String) (m0 : Nat)
    (hget : getEntry d rel = some (.file c0 m0)) :
    syncDir ctx children d rel =
      (match children with
      | [] => { dst := d, ops := [], err := none }
      | _ :: _ => { dst := d, ops := [], err := some Err.fileSyncError }) := by
  have hl := destListing_of_file ctx d rel c0 m0 hget
  simp only [syncDir, hl]
  have hdel : (if ctx.delete then deletionPhase d rel (namesOf children) []
      else { dst := d, ops := [], err := none }) = { dst := d, ops := [], err := none } := by
    cases ctx.delete <;> simp [deletionPhase]
  rw [hdel]
  cases children with
  | nil => simp [syncEntries]
  | cons hd tl =>
    obtain ⟨n, e⟩ := hd
    cases e with
    | file c m =>
      simp [syncEntries, syncEntry, uploadFile_through_file rel d c0 m0 n n c m hget]
    | dir sub =>
      simp [syncEntries, syncEntry, createFolder_through_file rel d c0 m0 n hget]

theorem deletionPhase_localized (rel : List String) (srcNames : List String) :
    ∀ (l : List (String × EntryKind)) (cs : List (String × Entry)) (d : Entry),
      getEntry d rel = some (.dir cs) →
      nodupB (namesOf cs) = true → childrenWf cs = true →
      nodupB (l.map (·.1)) = true →
      (∀ p ∈ l, (lookupName cs p.1).isSome = true) →
      ∃ ds₁ ops,
        deletionPhase d rel srcNames l =
          { dst := replaceSub d rel (.dir ds₁), ops := ops, err := none } ∧
        nodupB (namesOf ds₁) = true ∧ childrenWf ds₁ = true ∧
        (∀ m, m ∈ srcNames → lookupName ds₁ m = lookupName cs m) ∧
        (∀ p ∈ ds₁, p ∈ cs ∧ (p.1 ∈ srcNames ∨ p.1 ∉ l.map (·.1))) := by
  intro l
  induction l with
  | nil =>
    intro cs d hget hnd hwf _ _
    refine ⟨cs, [], ?_, hnd, hwf, fun m _ => rfl, fun p hp => ⟨hp, Or.inr (by simp)⟩⟩
    simp [deletionPhase, replaceSub_self rel d (.dir cs) hget]
  | cons hd tl ih =>
    intro cs d hget hnd hwf hndl hmem
    obtain ⟨n, k⟩ := hd
    simp only [List.map_cons, nodupB, Bool.and_eq_true, Bool.not_eq_true',
      decide_eq_false_iff_not] at hndl
    by_cases hn : n ∈ srcNames
    · obtain ⟨ds₁, ops, heq, h1, h2, h3, h4⟩ :=
        ih cs d hget hnd hwf hndl.2 (fun p hp => hmem p (List.mem_cons_of_mem _ hp))
      refine ⟨ds₁, ops, ?_, h1, h2, h3, fun p hp => ?_⟩
      · rw [show deletionPhase d rel srcNames ((n, k) :: tl) = deletionPhase d rel srcNames tl
          from by simp [deletionPhase, hn]]
        exact heq
      · obtain ⟨hin, hor⟩ := h4 p hp
        refine ⟨hin, ?_⟩
        rcases hor with h5 | h5
        · exact Or.inl h5
        · by_cases hpn : p.1 = n
          · exact Or.inl (hpn ▸ hn)
          · refine Or.inr ?_
            simp only [List.map_cons, List.mem_cons, not_or]
            exact ⟨hpn, h5⟩
    · have hs := hmem (n, k) (List.mem_cons_self _ _)
      obtain ⟨y, hy⟩ := Option.isSome_iff_exists.mp hs
      have hdel := deleteFile_append rel d cs n y hget hy
      have hget' : getEntry (replaceSub d rel (.dir (removeChild cs n))) rel =
          some (.dir (removeChild cs n)) :=
        getEntry_replaceSub rel d (.dir cs) (.dir (removeChild cs n)) hget
      have hmem' : ∀ p ∈ tl, (lookupName (removeChild cs n) p.1).isSome = true := by
        intro p hp
        have hne : p.1 ≠ n := by
          intro he
          exact hndl.1 (he ▸ List.mem_map_of_mem (·.1) hp)
        rw [lookupName_removeChild_ne cs n p.1 hne]
        exact hmem p (List.mem_cons_of_mem _ hp)
      obtain ⟨ds₁, ops, heq, h1, h2, h3, h4⟩ :=
        ih (removeChild cs n) (replaceSub d rel (.dir (removeChild cs n))) hget'
          (nodupB_removeChild cs n hnd) (childrenWf_removeChild cs n hwf) hndl.2 hmem'
      refine ⟨ds₁, (if k = .folder then Op.deletedFolder (rel ++ [n])
        else Op.deleted (rel ++ [n])) :: ops, ?_, h1, h2, ?_, ?_⟩
      · rw [show deletionPhase d rel srcNames ((n, k) :: tl) =
            { dst := (deletionPhase (replaceSub d rel (.dir (removeChild cs n))) rel srcNames tl).dst,
              ops := (if k = .folder then Op.deletedFolder (rel ++ [n])
                else Op.deleted (rel ++ [n])) ::
                (deletionPhase (replaceSub d rel (.dir (removeChild cs n))) rel srcNames tl).ops,
              err := (deletionPhase (replaceSub d rel (.dir (removeChild cs n))) rel srcNames tl).err }
          from by simp [deletionPhase, hn, hdel]]
        rw [heq]
        simp only [replaceSub_replaceSub rel d (.dir cs) (.dir (removeChild cs n)) (.dir ds₁) hget]
      · intro m hm
        have hmn : m ≠ n := fun he => hn (he ▸ hm)
        rw [h3 m hm, lookupName_removeChild_ne cs n m hmn]
      · intro p hp
        obtain ⟨hin, hor⟩ := h4 p hp
        refine ⟨mem_removeChild cs n p hin, ?_⟩
        rcases hor with h5 | h5
        · exact Or.inl h5
        · refine Or.inr ?_
          simp only [List.map_cons, List.mem_cons, not_or]
          exact ⟨mem_removeChild_fst_ne cs n p hnd hin, h5⟩

theorem noChange_no_op (ctx : Ctx) (hun : ctx.unreadable = []) (hdf : ctx.destListFails = []) :
    ∀ (fuel : Nat),
      (∀ (l ds : List (String × Entry)) (d : Entry) (rel : List String),
        sizeOf l ≤ fuel →
        getEntry d rel = some (.dir ds) →
        noChangeEntries ctx.delete l ds = true →
        syncEntries ctx l (namesOf ds) d rel = { dst := d, ops := [], err := none }) ∧
      (∀ (children ds : List (String × Entry)) (d : Entry) (rel : List String),
        sizeOf children ≤ fuel →
        getEntry d rel = some (.dir ds) →
        noChangeDir ctx.delete children ds = true →
        syncDir ctx children d rel = { dst := d, ops := [], err := none }) := by
  intro fuel
  induction fuel using Nat.strong_induction_on with
  | _ fuel ih =>
    have p1 : ∀ (l ds : List (String × Entry)) (d : Entry) (rel : List String),
        sizeOf l ≤ fuel → getEntry d rel = some (.dir ds) →
        noChangeEntries ctx.delete l ds = true →
        syncEntries ctx l (namesOf ds) d rel = { dst := d, ops := [], err := none } := by
      intro l ds d rel hsz hget hnc
      cases l with
      | nil => simp [syncEntries]
      | cons hd tl =>
        obtain ⟨n, e⟩ := hd
        simp only [noChangeEntries, Bool.and_eq_true] at hnc
        have hsz_cons : 1 + (1 + sizeOf n + sizeOf e) + sizeOf tl ≤ fuel := by
          simpa [List.cons.sizeOf_spec, Prod.mk.sizeOf_spec] using hsz
        have hentry : syncEntry ctx n e (namesOf ds) d rel =
            { dst := d, ops := [], err := none } := by
          cases e with
          | file c m =>
            have h0 := hnc.1
            cases hlk : lookupName ds n with
            | none => simp [noChangeEntry, hlk] at h0
            | some y =>
              cases y with
              | dir ds' => simp [noChangeEntry, hlk] at h0
              | file c' m' =>
                simp only [noChangeEntry, hlk, Bool.and_eq_true, beq_iff_eq,
                  decide_eq_true_eq] at h0
                obtain ⟨hc, hm⟩ := h0
                subst hc
                have hmem : n ∈ namesOf ds :=
                  (lookupName_isSome_iff ds n).mp (by simp [hlk])
                have hge : getEntry d (rel ++ [n]) = some (.file c m') := by
                  rw [getEntry_append rel [n] d, hget]
                  simp [getEntry_dir_single, hlk]
                have hngt : ¬ (m > m') := Nat.not_lt.mpr hm
                simp [syncEntry, if_pos hmem, handleExistingFile, hge, hngt]
          | dir sub =>
            have h0 := hnc.1
            cases hlk : lookupName ds n with
            | none => simp [noChangeEntry, hlk] at h0
            | some y =>
              have hmem : n ∈ namesOf ds :=
                (lookupName_isSome_iff ds n).mp (by simp [hlk])
              cases y with
              | file cf mf =>
                have hsub : sub = [] := by
                  cases sub with
                  | nil => rfl
                  | cons s1 s2 => simp [noChangeEntry, hlk] at h0
                subst hsub
                have hge : getEntry d (rel ++ [n]) = some (.file cf mf) := by
                  rw [getEntry_append rel [n] d, hget]
                  simp [getEntry_dir_single, hlk]
                simp only [syncEntry, if_pos hmem]
                rw [if_neg (by simp [hun])]
                rw [syncDir_at_file ctx [] d (rel ++ [n]) cf mf hge]
              | dir ds' =>
                simp only [noChangeEntry, hlk] at h0
                have hge : getEntry d (rel ++ [n]) = some (.dir ds') := by
                  rw [getEntry_append rel [n] d, hget]
                  simp [getEntry_dir_single, hlk]
                have hlt : sizeOf sub < fuel := by
                  have : sizeOf (Entry.dir sub) = 1 + sizeOf sub := by
                    simp [Entry.dir.sizeOf_spec]
                  omega
                simp only [syncEntry, if_pos hmem]
                rw [if_neg (by simp [hun])]
                exact (ih (sizeOf sub) hlt).2 sub ds' d (rel ++ [n]) le_rfl hge h0
        have hlt_tl : sizeOf tl < fuel := by omega
        have htl := (ih (sizeOf tl) hlt_tl).1 tl ds d rel le_rfl hget hnc.2
        simp [syncEntries, hentry, htl]
    have p2 : ∀ (children ds : List (String × Entry)) (d : Entry) (rel : List String),
        sizeOf children ≤ fuel → getEntry d rel = some (.dir ds) →
        noChangeDir ctx.delete children ds = true →
        syncDir ctx children d rel = { dst := d, ops := [], err := none } := by
      intro children ds d rel hsz hget hnc
      simp only [noChangeDir, Bool.and_eq_true] at hnc
      have hdl := destListing_of_dir ctx d rel ds hdf hget
      have hnames : (ds.map fun c => (c.1, entryKind c.2)).map (·.1) = namesOf ds := by
        simp only [List.map_map]
        rfl
      have hdel2 : (if ctx.delete then
          deletionPhase d rel (namesOf children) (ds.map fun c => (c.1, entryKind c.2))
          else { dst := d, ops := [], err := none }) = { dst := d, ops := [], err := none } := by
        cases hd : ctx.delete with
        | false => simp
        | true =>
          simp only [if_true]
          apply deletionPhase_all_kept
          intro p hp
          rcases List.mem_map.mp hp with ⟨q, hq, he⟩
          have hall := hnc.1
          rw [hd] at hall
          simp only [Bool.not_true, Bool.false_or, List.all_eq_true,
            decide_eq_true_eq] at hall
          have := hall q hq
          rw [← he]
          exact this
      simp only [syncDir, hdl, hdel2, hnames]
      rw [p1 children ds d rel hsz hget hnc.2]
      simp

    exact ⟨p1, p2⟩

theorem noChangeEntry_congr (del : Bool) (n : String) (e : Entry)
    (ds₁ ds₂ : List (String × Entry)) (h : lookupName ds₁ n = lookupName ds₂ n) :
    noChangeEntry del n e ds₁ = noChangeEntry del n e ds₂ := by
  cases e <;> simp only [noChangeEntry, h]

theorem noConflictOps_append (a b : List Op) :
    noConflictOps (a ++ b) = (noConflictOps a && noConflictOps b) := by
  simp [noConflictOps, List.all_append]

theorem syncEntries_cons_some (ctx : Ctx) (n : String) (e : Entry)
    (tl : List (String × Entry)) (destNames : List String) (d : Entry) (rel : List String)
    (er : Err) (h : (syncEntry ctx n e destNames d rel).err = some er) :
    syncEntries ctx ((n, e) :: tl) destNames d rel = syncEntry ctx n e destNames d rel := by
  simp [syncEntries, h]

theorem syncEntries_cons_none (ctx : Ctx) (n : String) (e : Entry)
    (tl : List (String × Entry)) (destNames : List String) (d : Entry) (rel : List String)
    (h : (syncEntry ctx n e destNames d rel).err = none) :
    syncEntries ctx ((n, e) :: tl) destNames d rel =
      { dst := (syncEntries ctx tl destNames (syncEntry ctx n e destNames d rel).dst rel).dst,
        ops := (syncEntry ctx n e destNames d rel).ops ++
          (syncEntries ctx tl destNames (syncEntry ctx n e destNames d rel).dst rel).ops,
        err := (syncEntries ctx tl destNames (syncEntry ctx n e destNames d rel).dst rel).err } := by
  simp [syncEntries, h]

theorem getEntry_append_single (d : Entry) (rel : List String) (n : String)
    (ds : List (String × Entry)) (y : Entry) (hget : getEntry d rel = some (.dir ds))
    (hy : lookupName ds n = some y) : getEntry d (rel ++ [n]) = some y := by
  rw [getEntry_append rel [n] d, hget]
  simp [getEntry_dir_single, hy]

theorem clean_run_noChange (ctx : Ctx) (hun : ctx.unreadable = []) (hdf : ctx.destListFails = []) :
    ∀ (fuel : Nat),
      (∀ (l : List (String × Entry)) (destNames : List String)
          (ds : List (String × Entry)) (d : Entry) (rel : List String),
        sizeOf l ≤ fuel →
        getEntry d rel = some (.dir ds) →
        nodupB (namesOf l) = true → childrenWf l = true →
        nodupB (namesOf ds) = true → childrenWf ds = true →
        (∀ m, m ∈ namesOf l → m ∉ destNames → lookupName ds m = none) →
        (∀ m, m ∈ namesOf l → m ∈ destNames → (lookupName ds m).isSome = true) →
        (syncEntries ctx l destNames d rel).err = none →
        noConflictOps (syncEntries ctx l destNames d rel).ops = true →
        ∃ ds₁,
          (syncEntries ctx l destNames d rel).dst = replaceSub d rel (.dir ds₁) ∧
          nodupB (namesOf ds₁) = true ∧ childrenWf ds₁ = true ∧
          noChangeEntries ctx.delete l ds₁ = true ∧
          (∀ m, m ∉ namesOf l → lookupName ds₁ m = lookupName ds m) ∧
          (∀ p ∈ ds₁, p.1 ∈ namesOf l ∨ p ∈ ds)) ∧
      (∀ (children ds : List (String × Entry)) (d : Entry) (rel : List String),
        sizeOf children ≤ fuel →
        getEntry d rel = some (.dir ds) →
        nodupB (namesOf children) = true → childrenWf children = true →
        nodupB (namesOf ds) = true → childrenWf ds = true →
        (syncDir ctx children d rel).err = none →
        noConflictOps (syncDir ctx children d rel).ops = true →
        ∃ ds₁,
          (syncDir ctx children d rel).dst = replaceSub d rel (.dir ds₁) ∧
          nodupB (namesOf ds₁) = true ∧ childrenWf ds₁ = true ∧
          noChangeDir ctx.delete children ds₁ = true) := by
  intro fuel
  induction fuel using Nat.strong_induction_on with
  | _ fuel ih =>
    have p1 : ∀ (l : List (String × Entry)) (destNames : List String)
        (ds : List (String × Entry)) (d : Entry) (rel : List String),
        sizeOf l ≤ fuel →
        getEntry d rel = some (.dir ds) →
        nodupB (namesOf l) = true → childrenWf l = true →
        nodupB (namesOf ds) = true → childrenWf ds = true →
        (∀ m, m ∈ namesOf l → m ∉ destNames → lookupName ds m = none) →
        (∀ m, m ∈ namesOf l → m ∈ destNames → (lookupName ds m).isSome = true) →
        (syncEntries ctx l destNames d rel).err = none →
        noConflictOps (syncEntries ctx l destNames d rel).ops = true →
        ∃ ds₁,
          (syncEntries ctx l destNames d rel).dst = replaceSub d rel (.dir ds₁) ∧
          nodupB (namesOf ds₁) = true ∧ childrenWf ds₁ = true ∧
          noChangeEntries ctx.delete l ds₁ = true ∧
          (∀ m, m ∉ namesOf l → lookupName ds₁ m = lookupName ds m) ∧
          (∀ p ∈ ds₁, p.1 ∈ namesOf l ∨ p ∈ ds) := by
      intro l destNames ds d rel hsz hget hndl hwfl hndd hwfd hinv1 hinv2 herr hops
      cases l with
      | nil =>
        refine ⟨ds, ?_, hndd, hwfd, ?_, fun m _ => rfl, fun p hp => Or.inr hp⟩
        · simp [syncEntries, replaceSub_self rel d (.dir ds) hget]
        · simp [noChangeEntries]
      | cons hd tl =>
        obtain ⟨n, e⟩ := hd
        rw [show namesOf ((n, e) :: tl) = n :: namesOf tl from rfl] at hndl
        simp only [nodupB, Bool.and_eq_true, Bool.not_eq_true',
          decide_eq_false_iff_not] at hndl
        simp only [childrenWf, Bool.and_eq_true] at hwfl
        have hsz_cons : 1 + (1 + sizeOf n + sizeOf e) + sizeOf tl ≤ fuel := by
          simpa [List.cons.sizeOf_spec, Prod.mk.sizeOf_spec] using hsz
        have hmn : n ∈ namesOf ((n, e) :: tl) := by
          rw [show namesOf ((n, e) :: tl) = n :: namesOf tl from rfl]
          exact List.mem_cons_self _ _
        cases herr1 : (syncEntry ctx n e destNames d rel).err with
        | some er =>
          rw [syncEntries_cons_some ctx n e tl destNames d rel er herr1] at herr
          rw [herr1] at herr
          simp at herr
        | none =>
          rw [syncEntries_cons_none ctx n e tl destNames d rel herr1] at herr hops ⊢
          simp only at herr hops ⊢
          rw [noConflictOps_append, Bool.and_eq_true] at hops
          -- per-entry characterization
          have hentry : ∃ x,
              (syncEntry ctx n e destNames d rel).dst =
                replaceSub d rel (.dir (setChild ds n x)) ∧
              entryWf x = true ∧
              noChangeEntry ctx.delete n e (setChild ds n x) = true := by
            cases e with
            | file c m =>
              by_cases hmem : n ∈ destNames
              · have hr1 : syncEntry ctx n (.file c m) destNames d rel =
                    handleExistingFile ctx d (rel ++ [n]) (rel ++ [n]) c m n := by
                  simp [syncEntry, hmem]
                obtain ⟨y, hy⟩ := Option.isSome_iff_exists.mp (hinv2 n hmn hmem)
                have hge := getEntry_append_single d rel n ds y hget hy
                cases y with
                | dir ds'' =>
                  rw [hr1] at herr1
                  simp [handleExistingFile, hge] at herr1
                | file c' m' =>
                  by_cases hcc : c = c'
                  · subst hcc
                    by_cases hmm : m > m'
                    · have hup := uploadFile_append rel d ds n n c m hget
                        (fun sub h => by rw [hy] at h; simp at h)
                      have hh : handleExistingFile ctx d (rel ++ [n]) (rel ++ [n]) c m n =
                          { dst := replaceSub d rel (.dir (setChild ds n (.file c m))),
                            ops := [.updated (rel ++ [n]) (rel ++ [n])], err := none } := by
                        simp [handleExistingFile, hge, hmm, hup]
                      refine ⟨.file c m, ?_, by simp [entryWf], ?_⟩
                      · rw [hr1, hh]
                      · simp [noChangeEntry, lookupName_setChild_self]
                    · have hh : handleExistingFile ctx d (rel ++ [n]) (rel ++ [n]) c m n =
                          { dst := d, ops := [], err := none } := by
                        simp [handleExistingFile, hge, hmm]
                      refine ⟨.file c m', ?_, by simp [entryWf], ?_⟩
                      · rw [hr1, hh]
                        rw [setChild_lookup_self ds n (.file c m') hy,
                          replaceSub_self rel d (.dir ds) hget]
                      · have hle := Nat.le_of_not_lt hmm
                        simp [noChangeEntry, lookupName_setChild_self, hle]
                  · exfalso
                    have hh : handleExistingFile ctx d (rel ++ [n]) (rel ++ [n]) c m n =
                        resolveConflict ctx d (rel ++ [n]) (rel ++ [n]) c m n := by
                      simp [handleExistingFile, hge, hcc]
                    rw [hr1, hh] at herr1
                    rw [hr1, hh] at hops
                    exact resolveConflict_not_clean ctx d (rel ++ [n]) (rel ++ [n]) c m n
                      herr1 hops.1
              · have hnone := hinv1 n hmn hmem
                have hup := uploadFile_append rel d ds n n c m hget
                  (fun sub h => by rw [hnone] at h; simp at h)
                have hr1 : syncEntry ctx n (.file c m) destNames d rel =
                    { dst := replaceSub d rel (.dir (setChild ds n (.file c m))),
                      ops := [.uploaded (rel ++ [n]) (rel ++ [n])], err := none } := by
                  simp [syncEntry, hmem, hup]
                refine ⟨.file c m, ?_, by simp [entryWf], ?_⟩
                · rw [hr1]
                · simp [noChangeEntry, lookupName_setChild_self]
            | dir sub =>
              have hwfsub : nodupB (namesOf sub) = true ∧ childrenWf sub = true := by
                have := hwfl.1
                simp only [entryWf, Bool.and_eq_true] at this
                exact this
              have hsub_lt : sizeOf sub < fuel := by
                have : sizeOf (Entry.dir sub) = 1 + sizeOf sub := by
                  simp [Entry.dir.sizeOf_spec]
                omega
              by_cases hmem : n ∈ destNames
              · have hr1 : syncEntry ctx n (.dir sub) destNames d rel =
                    syncDir ctx sub d (rel ++ [n]) := by
                  simp only [syncEntry, if_pos hmem]
                  rw [if_neg (by simp [hun])]
                obtain ⟨y, hy⟩ := Option.isSome_iff_exists.mp (hinv2 n hmn hmem)
                have hge := getEntry_append_single d rel n ds y hget hy
                cases y with
                | file cf mf =>
                  cases hsubnil : sub with
                  | nil =>
                    rw [hsubnil] at hr1
                    have hh := syncDir_at_file ctx ([] : List (String × Entry)) d
                      (rel ++ [n]) cf mf hge
                    refine ⟨.file cf mf, ?_, by simp [entryWf], ?_⟩
                    · rw [hr1, hh]
                      rw [setChild_lookup_self ds n (.file cf mf) hy,
                        replaceSub_self rel d (.dir ds) hget]
                    · simp [noChangeEntry, lookupName_setChild_self]
                  | cons s1 s2 =>
                    exfalso
                    rw [hsubnil] at hr1 herr1
                    rw [hr1] at herr1
                    rw [syncDir_at_file ctx (s1 :: s2) d (rel ++ [n]) cf mf hge] at herr1
                    simp at herr1
                | dir ds'' =>
                  have hwfds'' : nodupB (namesOf ds'') = true ∧ childrenWf ds'' = true := by
                    have := entryWf_lookup ds n (.dir ds'') hwfd hy
                    simp only [entryWf, Bool.and_eq_true] at this
                    exact this
                  rw [hr1] at herr1 hops
                  obtain ⟨sub₁, hs1, hs2, hs3, hs4⟩ :=
                    (ih (sizeOf sub) hsub_lt).2 sub ds'' d (rel ++ [n]) le_rfl hge
                      hwfsub.1 hwfsub.2 hwfds''.1 hwfds''.2 herr1 hops.1
                  refine ⟨.dir sub₁, ?_, ?_, ?_⟩
                  · rw [hr1, hs1,
                      replaceSub_append_last rel d ds n (.dir ds'') (.dir sub₁) hget hy]
                  · simp [entryWf, hs2, hs3]
                  · simp only [noChangeEntry, lookupName_setChild_self]
                    exact hs4
              · have hnone := hinv1 n hmn hmem
                have hcf := createFolder_append_new rel d ds n hget hnone
                have hr1 : syncEntry ctx n (.dir sub) destNames d rel =
                    { dst := (syncDir ctx sub
                        (replaceSub d rel (.dir (setChild ds n (.dir [])))) (rel ++ [n])).dst,
                      ops := .createdFolder (rel ++ [n]) ::
                        (syncDir ctx sub
                          (replaceSub d rel (.dir (setChild ds n (.dir [])))) (rel ++ [n])).ops,
                      err := (syncDir ctx sub
                        (replaceSub d rel (.dir (setChild ds n (.dir [])))) (rel ++ [n])).err } := by
                  simp only [syncEntry, if_neg hmem, hcf]
                  rw [if_neg (by simp [hun])]
                have hg2 : getEntry (replaceSub d rel (.dir (setChild ds n (.dir [])))) rel =
                    some (.dir (setChild ds n (.dir []))) :=
                  getEntry_replaceSub rel d (.dir ds) (.dir (setChild ds n (.dir []))) hget
                have hg3 : getEntry (replaceSub d rel (.dir (setChild ds n (.dir []))))
                    (rel ++ [n]) = some (.dir []) :=
                  getEntry_append_single _ rel n (setChild ds n (.dir [])) (.dir []) hg2
                    (lookupName_setChild_self ds n (.dir []))
                rw [hr1] at herr1 hops
                simp only at herr1 hops
                have hops' : noConflictOps (syncDir ctx sub
                    (replaceSub d rel (.dir (setChild ds n (.dir [])))) (rel ++ [n])).ops =
                    true := by
                  have := hops.1
                  simp only [noConflictOps, List.all_cons, Bool.and_eq_true] at this
                  exact this.2
                obtain ⟨sub₁, hs1, hs2, hs3, hs4⟩ :=
                  (ih (sizeOf sub) hsub_lt).2 sub ([] : List (String × Entry))
                    (replaceSub d rel (.dir (setChild ds n (.dir [])))) (rel ++ [n]) le_rfl hg3
                    hwfsub.1 hwfsub.2 (by simp [namesOf, nodupB]) (by simp [childrenWf])
                    herr1 hops'
                refine ⟨.dir sub₁, ?_, ?_, ?_⟩
                · rw [hr1]
                  simp only
                  rw [hs1,
                    replaceSub_append_last rel
                      (replaceSub d rel (.dir (setChild ds n (.dir [])))) (setChild ds n (.dir []))
                      n (.dir []) (.dir sub₁) hg2 (lookupName_setChild_self ds n (.dir [])),
                    setChild_setChild,
                    replaceSub_replaceSub rel d (.dir ds) (.dir (setChild ds n (.dir [])))
                      (.dir (setChild ds n (.dir sub₁))) hget]
                · simp [entryWf, hs2, hs3]
                · simp only [noChangeEntry, lookupName_setChild_self]
                  exact hs4
          obtain ⟨x, hx1, hx2, hx3⟩ := hentry
          have hget' : getEntry (syncEntry ctx n e destNames d rel).dst rel =
              some (.dir (setChild ds n x)) := by
            rw [hx1]
            exact getEntry_replaceSub rel d (.dir ds) (.dir (setChild ds n x)) hget
          have hinv1' : ∀ m, m ∈ namesOf tl → m ∉ destNames →
              lookupName (setChild ds n x) m = none := by
            intro m hm hmd
            have hne : m ≠ n := fun he => hndl.1 (he ▸ hm)
            rw [lookupName_setChild_ne ds n m x hne]
            have hml : m ∈ namesOf ((n, e) :: tl) := by
              rw [show namesOf ((n, e) :: tl) = n :: namesOf tl from rfl]
              exact List.mem_cons_of_mem _ hm
            exact hinv1 m hml hmd
          have hinv2' : ∀ m, m ∈ namesOf tl → m ∈ destNames →
              (lookupName (setChild ds n x) m).isSome = true := by
            intro m hm hmd
            have hne : m ≠ n := fun he => hndl.1 (he ▸ hm)
            rw [lookupName_setChild_ne ds n m x hne]
            have hml : m ∈ namesOf ((n, e) :: tl) := by
              rw [show namesOf ((n, e) :: tl) = n :: namesOf tl from rfl]
              exact List.mem_cons_of_mem _ hm
            exact hinv2 m hml hmd
          have htl_lt : sizeOf tl < fuel := by omega
          obtain ⟨ds₁, hd1, hd2, hd3, hd4, hd5, hd6⟩ :=
            (ih (sizeOf tl) htl_lt).1 tl destNames (setChild ds n x)
              (syncEntry ctx n e destNames d rel).dst rel le_rfl hget' hndl.2 hwfl.2
              (nodupB_setChild ds n x hndd) (childrenWf_setChild ds n x hwfd hx2)
              hinv1' hinv2' herr hops.2
          refine ⟨ds₁, ?_, hd2, hd3, ?_, ?_, ?_⟩
          · rw [hd1, hx1, replaceSub_replaceSub rel d (.dir ds) (.dir (setChild ds n x))
              (.dir ds₁) hget]
          · simp only [noChangeEntries, Bool.and_eq_true]
            refine ⟨?_, hd4⟩
            rw [noChangeEntry_congr ctx.delete n e ds₁ (setChild ds n x)
              (by rw [hd5 n hndl.1, lookupName_setChild_self])]
            exact hx3
          · intro m hm
            rw [show namesOf ((n, e) :: tl) = n :: namesOf tl from rfl, List.mem_cons,
              not_or] at hm
            rw [hd5 m hm.2, lookupName_setChild_ne ds n m x hm.1]
          · intro p hp
            rcases hd6 p hp with hc | hc
            · exact Or.inl (by
                rw [show namesOf ((n, e) :: tl) = n :: namesOf tl from rfl]
                exact List.mem_cons_of_mem _ hc)
            · rcases mem_setChild ds n x p hc with hc2 | hc2
              · exact Or.inl (by
                  rw [hc2, show namesOf ((n, e) :: tl) = n :: namesOf tl from rfl]
                  exact List.mem_cons_self _ _)
              · exact Or.inr hc2
    have p2 : ∀ (children ds : List (String × Entry)) (d : Entry) (rel : List String),
        sizeOf children ≤ fuel →
        getEntry d rel = some (.dir ds) →
        nodupB (namesOf children) = true → childrenWf children = true →
        nodupB (namesOf ds) = true → childrenWf ds = true →
        (syncDir ctx children d rel).err = none →
        noConflictOps (syncDir ctx children d rel).ops = true →
        ∃ ds₁,
          (syncDir ctx children d rel).dst = replaceSub d rel (.dir ds₁) ∧
          nodupB (namesOf ds₁) = true ∧ childrenWf ds₁ = true ∧
          noChangeDir ctx.delete children ds₁ = true := by
      intro children ds d rel hsz hget hndc hwfc hndd hwfd herr hops
      have hdl := destListing_of_dir ctx d rel ds hdf hget
      have hnames : (ds.map fun c => (c.1, entryKind c.2)).map (·.1) = namesOf ds := by
        simp only [List.map_map]
        rfl
      cases hdel : ctx.delete with
      | false =>
        have hsd : syncDir ctx children d rel =
            { dst := (syncEntries ctx children (namesOf ds) d rel).dst,
              ops := (syncEntries ctx children (namesOf ds) d rel).ops,
              err := (syncEntries ctx children (namesOf ds) d rel).err } := by
          simp [syncDir, hdl, hdel, hnames]
        rw [hsd] at herr hops ⊢
        obtain ⟨ds₁, h1, h2, h3, h4, h5, h6⟩ :=
          p1 children (namesOf ds) ds d rel hsz hget hndc hwfc hndd hwfd
            (fun m _ hm => lookupName_of_not_mem ds m hm)
            (fun m _ hm => (lookupName_isSome_iff ds m).mpr hm) herr hops
        rw [hdel] at h4
        exact ⟨ds₁, h1, h2, h3, by simp [noChangeDir, hdel, h4]⟩
      | true =>
        have hndE : nodupB ((ds.map fun c => (c.1, entryKind c.2)).map (·.1)) = true := by
          rw [hnames]
          exact hndd
        have hmemE : ∀ p ∈ ds.map fun c => (c.1, entryKind c.2),
            (lookupName ds p.1).isSome = true := by
          intro p hp
          rcases List.mem_map.mp hp with ⟨q, hq, he⟩
          rw [← he]
          exact (lookupName_isSome_iff ds q.1).mpr (name_mem_of_mem ds q hq)
        obtain ⟨ds', ops', heq, hnd', hwf', hpres, hsub⟩ :=
          deletionPhase_localized rel (namesOf children)
            (ds.map fun c => (c.1, entryKind c.2)) ds d hget hndd hwfd hndE hmemE
        have hget' : getEntry (replaceSub d rel (.dir ds')) rel = some (.dir ds') :=
          getEntry_replaceSub rel d (.dir ds) (.dir ds') hget
        have hsd : syncDir ctx children d rel =
            { dst := (syncEntries ctx children (namesOf ds)
                (replaceSub d rel (.dir ds')) rel).dst,
              ops := ops' ++ (syncEntries ctx children (namesOf ds)
                (replaceSub d rel (.dir ds')) rel).ops,
              err := (syncEntries ctx children (namesOf ds)
                (replaceSub d rel (.dir ds')) rel).err } := by
          simp [syncDir, hdl, hdel, heq, hnames]
        rw [hsd] at herr hops ⊢
        rw [noConflictOps_append, Bool.and_eq_true] at hops
        obtain ⟨ds₁, h1, h2, h3, h4, h5, h6⟩ :=
          p1 children (namesOf ds) ds' (replaceSub d rel (.dir ds')) rel hsz hget'
            hndc hwfc hnd' hwf'
            (fun m hmc hmd => by
              rw [hpres m hmc]
              exact lookupName_of_not_mem ds m hmd)
            (fun m hmc hmd => by
              rw [hpres m hmc]
              exact (lookupName_isSome_iff ds m).mpr hmd)
            herr hops.2
        refine ⟨ds₁, ?_, h2, h3, ?_⟩
        · rw [h1, replaceSub_replaceSub rel d (.dir ds) (.dir ds') (.dir ds₁) hget]
        · have hcov : ∀ p ∈ ds₁, p.1 ∈ namesOf children := by
            intro p hp
            rcases h6 p hp with hc | hc
            · exact hc
            · obtain ⟨hin, hor⟩ := hsub p hc
              rcases hor with hh | hh
              · exact hh
              · rw [hnames] at hh
                exact absurd (name_mem_of_mem ds p hin) hh
          rw [hdel] at h4
          simp only [noChangeDir, hdel, Bool.not_true, Bool.false_or, Bool.and_eq_true,
            List.all_eq_true, decide_eq_true_eq]
          exact ⟨hcov, h4⟩
    exact ⟨p1, p2⟩

/-- C4 amended: with no listing failures injected, if the first pass
completes without error and without detecting any conflict (its record
holds no conflict-branch operation), then the second pass over the
unchanged source performs no operation at all: no upload, no deletion, no
folder creation (its record is empty and the destination is untouched).
The counterexample shows the unamended claim fails when a conflict
persists between runs. -/
theorem c4_idempotent_without_conflicts (ctx : Ctx)
    (children ds0 : List (String × Entry))
    (hun : ctx.unreadable = []) (hdf : ctx.destListFails = [])
    (hwfs : entryWf (.dir children) = true) (hwfd : entryWf (.dir ds0) = true)
    (herr : (syncRecursive ctx (.dir children) (.dir ds0) []).err = none)
    (hops : noConflictOps (syncRecursive ctx (.dir children) (.dir ds0) []).ops = true) :
    syncRecursive ctx (.dir children)
        (syncRecursive ctx (.dir children) (.dir ds0) []).dst [] =
      { dst := (syncRecursive ctx (.dir children) (.dir ds0) []).dst,
        ops := [], err := none } := by
  have hsr : syncRecursive ctx (.dir children) (.dir ds0) [] =
      syncDir ctx children (.dir ds0) [] := by
    simp [syncRecursive, hun]
  rw [hsr] at herr hops ⊢
  have hwfs' : nodupB (namesOf children) = true ∧ childrenWf children = true := by
    simp only [entryWf, Bool.and_eq_true] at hwfs
    exact hwfs
  have hwfd' : nodupB (namesOf ds0) = true ∧ childrenWf ds0 = true := by
    simp only [entryWf, Bool.and_eq_true] at hwfd
    exact hwfd
  obtain ⟨ds₁, h1, h2, h3, h4⟩ :=
    (clean_run_noChange ctx hun hdf (sizeOf children)).2 children ds0 (.dir ds0) []
      le_rfl rfl hwfs'.1 hwfs'.2 hwfd'.1 hwfd'.2 herr hops
  rw [h1, show replaceSub (.dir ds0) [] (.dir ds₁) = .dir ds₁ from rfl]
  have hsr2 : syncRecursive ctx (.dir children) (.dir ds₁) [] =
      syncDir ctx children (.dir ds₁) [] := by
    simp [syncRecursive, hun]
  rw [hsr2]
  exact (noChange_no_op ctx hun hdf (sizeOf children)).2 children ds₁ (.dir ds₁) []
    le_rfl rfl h4

/-- Witness for the amended C4: a conflict-free first pass (one upload, one
folder creation, one deletion with the delete option on), after which the
second pass does nothing. -/
theorem c4_idempotent_without_conflicts_witness :
    syncRecursive { delete := true }
        (.dir [("a.txt", .file "X" 5), ("sub", .dir [("b.txt", .file "B" 2)])])
        (syncRecursive { delete := true }
          (.dir [("a.txt", .file "X" 5), ("sub", .dir [("b.txt", .file "B" 2)])])
          (.dir [("old.txt", .file "O" 0)]) []).dst [] =
      { dst := (syncRecursive { delete := true }
          (.dir [("a.txt", .file "X" 5), ("sub", .dir [("b.txt", .file "B" 2)])])
          (.dir [("old.txt", .file "O" 0)]) []).dst,
        ops := [], err := none } :=
  c4_idempotent_without_conflicts { delete := true }
    [("a.txt", .file "X" 5), ("sub", .dir [("b.txt", .file "B" 2)])]
    [("old.txt", .file "O" 0)] rfl rfl
    (by simp [entryWf, childrenWf, nodupB, namesOf])
    (by simp [entryWf, childrenWf, nodupB, namesOf])
    (by simp [syncRecursive, syncDir, syncEntries, syncEntry, handleExistingFile,
      resolveConflict, destListing, getFileListD, getFileList, getEntry, lookupName,
      entryKind, deletionPhase, namesOf, uploadFile, createFolder, deleteFile, setChild,
      removeChild])
    (by simp [syncRecursive, syncDir, syncEntries, syncEntry, handleExistingFile,
      resolveConflict, destListing, getFileListD, getFileList, getEntry, lookupName,
      entryKind, deletionPhase, namesOf, uploadFile, createFolder, deleteFile, setChild,
      removeChild, noConflictOps, isConflictOp])

end Syncary
